import Mathlib

/-!
Verification development for the SCIM data-handling core (scimple / scimpler):
a shallow embedding of the case-insensitive data container (`SCIMData`),
attribute-path representations (`AttrRep` / `BoundedAttrRep`), the
validation-issue tree (`ValidationIssues`), the attribute validation pipeline
(`Attribute.validate_type` / `Attribute.validate`, `Complex`), and the schema
registry, together with theorems settling the specification claims.
-/

namespace Scimple

/-- `str.lower()` on the ASCII attribute-name/URI alphabet, written over the
character list so that it reduces inside the kernel. -/
def lc (s : String) : String := ⟨s.data.map Char.toLower⟩

/-- Case-insensitive equality of keys, mirroring Python's
`key.lower() == other.lower()` used by `AttrName`/`SchemaURI` and by
`SCIMData._lower_case_to_original` indexing. -/
def ciEq (a b : String) : Bool := lc a == lc b

/-- JSON-ish values handled by the container, including the `Missing` and
`Invalid` sentinels of `scimpler/container.py`.  Nested mappings are
`SCIMData` containers, embedded here as association lists of
original-case key/value pairs (mirroring `SCIMData._data`, whose
case-insensitive index `_lower_case_to_original` is realised by
case-insensitive lookup). -/
inductive Value where
  | vNull
  | vBool (b : Bool)
  | vInt (n : Int)
  | vStr (s : String)
  | vList (xs : List Value)
  | vData (entries : List (String × Value))
  | vMissing
  | vInvalid

abbrev SCIMData := List (String × Value)

/-- Python `==` on primitive payload values (used for dictionary keys and
canonical-value membership).  Container/list values compare structurally. -/
def Value.beq : Value → Value → Bool
  | .vNull, .vNull => true
  | .vBool a, .vBool b => a == b
  | .vInt a, .vInt b => a == b
  | .vStr a, .vStr b => a == b
  | .vList xs, .vList ys => beqL xs ys
  | .vData es, .vData fs => beqE es fs
  | .vMissing, .vMissing => true
  | .vInvalid, .vInvalid => true
  | _, _ => false
where
  beqL : List Value → List Value → Bool
    | [], [] => true
    | x :: xs, y :: ys => Value.beq x y && beqL xs ys
    | _, _ => false
  beqE : List (String × Value) → List (String × Value) → Bool
    | [], [] => true
    | (k, x) :: xs, (l, y) :: ys => k == l && Value.beq x y && beqE xs ys
    | _, _ => false

namespace Data

/-- Case-insensitive key lookup: the composition of
`_lower_case_to_original.get(key.lower())` with `_data[original]`.
Returns the stored original-case key together with the value. -/
def findCI (d : SCIMData) (key : String) : Option (String × Value) :=
  d.find? (fun p => ciEq p.1 key)

/-- True when some stored key matches `key` case-insensitively
(`key.lower() in _lower_case_to_original`). -/
def hasKeyCI (d : SCIMData) (key : String) : Bool :=
  (findCI d key).isSome

/-- Top-level write for a plain attribute key (`SCIMData.set`, no
sub-attribute): the entry stored under any casing of the key is popped
(`self._data.pop(original_key)`) and the value is inserted at the end
under the new casing. -/
def setPlain (d : SCIMData) (key : String) (v : Value) : SCIMData :=
  (d.filter (fun p => !ciEq p.1 key)) ++ [(key, v)]

/-- Top-level read for a plain attribute key (`SCIMData.get`, no
sub-attribute). -/
def getPlain (d : SCIMData) (key : String) (default : Value) : Value :=
  match findCI d key with
  | some p => p.2
  | none => default

/-- `SCIMData.get` for an `_AttrKey(attr, sub_attr)`.  With a sub-attribute,
the parent value is inspected: a nested container is descended into (with
the nested call's own default, `Missing`); a list is mapped element-wise,
non-container items yielding the caller's default; anything else yields
the caller's default. -/
def getAttr (d : SCIMData) (attr : String) (subAttr : Option String)
    (default : Value) : Value :=
  match findCI d attr with
  | none => default
  | some (_, stored) =>
    match subAttr with
    | none => stored
    | some sub =>
      match stored with
      | Value.vData entries => getPlain entries sub Value.vMissing
      | Value.vList xs =>
        Value.vList (xs.map (fun item =>
          match item with
          | Value.vData entries => getPlain entries sub Value.vMissing
          | _ => default))
      | _ => default

/-- Failure modes of `SCIMData.set` for a sub-attribute path:
`keyError` is the `KeyError` raised after `_is_child_value_compatible`
rejects the parent value; `attrError` is the `AttributeError` raised when
the parent value is a plain list (compatible per
`_is_child_value_compatible`) and the code then invokes `.set` on it. -/
inductive SetErr where
  | keyError
  | attrError
  deriving Repr, DecidableEq

/-- `SCIMData._is_child_value_compatible`: a list parent accepts only list
children; a non-container, non-list parent accepts nothing; a container
parent accepts everything. -/
def isChildValueCompatible (parent child : Value) : Bool :=
  match parent with
  | Value.vList _ =>
    match child with
    | Value.vList _ => true
    | _ => false
  | Value.vData _ => true
  | _ => false

/-- `SCIMData.set` for an `_AttrKey(attr, sub_attr)` key (plain writes go
through `setPlain`).  When no entry matches `attr` case-insensitively, a
fresh nested container is created and the sub-attribute is written into
it.  Otherwise the stored parent value is checked by
`_is_child_value_compatible`; incompatibility raises `KeyError`, and a
(compatible) list parent subsequently fails on `.set`, which lists do not
define. -/
def setAttr (d : SCIMData) (attr : String) (subAttr : Option String)
    (v : Value) : Except SetErr SCIMData :=
  match subAttr with
  | none => Except.ok (setPlain d attr v)
  | some sub =>
    match findCI d attr with
    | none => Except.ok (d ++ [(attr, Value.vData (setPlain [] sub v))])
    | some (origKey, parent) =>
      if isChildValueCompatible parent v then
        match parent with
        | Value.vData entries =>
          Except.ok (d.map (fun p =>
            if p.1 = origKey then (p.1, Value.vData (setPlain entries sub v)) else p))
        | _ => Except.error SetErr.attrError
      else
        Except.error SetErr.keyError

/-- Discriminator: is the value a nested container? -/
def Value.isData : Value → Bool
  | .vData _ => true
  | _ => false

/-- Discriminator: is the value a plain list? -/
def Value.isList : Value → Bool
  | .vList _ => true
  | _ => false

end Data

/-! ## Attribute path representations (`AttrRep`, `BoundedAttrRep`) -/

/-- The two path representations of `scimpler/container.py`: `AttrRep`
(`attr`, optional `sub_attr`) and its subclass `BoundedAttrRep`, which
additionally carries the schema URI and the registry-derived extension
flag. -/
inductive Rep where
  | plain (attr : String) (subAttr : Option String)
  | bounded (schema : String) (attr : String) (subAttr : Option String)
      (extension : Bool)

/-- Equality of optional sub-attribute names: `AttrName` equality is
case-insensitive, `None` equals only `None` (comparing an `AttrName` with
`None` is false in both directions). -/
def subEq : Option String → Option String → Bool
  | none, none => true
  | some a, some b => ciEq a b
  | _, _ => false

/-- The name part of `AttrRep.__eq__`: `self._attr == other._attr and
self._sub_attr == other._sub_attr`, case-insensitively. -/
def namesEq (a₁ : String) (s₁ : Option String) (a₂ : String)
    (s₂ : Option String) : Bool :=
  ciEq a₁ a₂ && subEq s₁ s₂

/-- Python `==` on path representations, dispatching on the left operand's
class: `AttrRep.__eq__` compares names only (accepting any `AttrRep`,
subclasses included); `BoundedAttrRep.__eq__` falls back to the parent
comparison when the right operand is not bounded, and otherwise also
requires case-insensitively equal schemas.  The extension flag is never
compared. -/
def repEq : Rep → Rep → Bool
  | .plain a s, .plain a' s' => namesEq a s a' s'
  | .plain a s, .bounded _ a' s' _ => namesEq a s a' s'
  | .bounded _ a s _, .plain a' s' => namesEq a s a' s'
  | .bounded sc a s _, .bounded sc' a' s' _ => namesEq a s a' s' && ciEq sc sc'

/-- The tuple fed to `hash(...)` by each class, with `AttrName`/`SchemaURI`
components case-folded (their `__hash__` hashes the lowercase form):
`AttrRep.__hash__` uses `(attr, sub_attr)`, `BoundedAttrRep.__hash__`
uses `(attr, schema, sub_attr)`. -/
def hashKey : Rep → List (Option String)
  | .plain a s => [some (lc a), s.map lc]
  | .bounded sc a s _ => [some (lc a), some (lc sc), s.map lc]

/-! ## Validation issues (`scimpler/error.py`, `ValidationIssues`) -/

/-- One segment of an issue location: an attribute name or a list index. -/
inductive LocSeg where
  | s (name : String)
  | n (idx : Nat)
  deriving Repr, DecidableEq

/-- A location tuple, as used to key `_errors` / `_warnings` /
`_stop_proceeding`. -/
abbrev Location := List LocSeg

/-- A `ValidationError`: its numeric code plus the context that the claims
distinguish (the `expected` entry of `bad_type` / `bad_encoding`); empty
for errors whose context the claims never inspect. -/
structure VErr where
  code : Nat
  expected : String := ""
  deriving Repr, DecidableEq

namespace Issues

/-- `mapping.get(location)` — the entry with this key (Python dictionaries
hold at most one). -/
def entryAt (m : List (Location × List α)) (ℓ : Location) : Option (List α) :=
  (m.find? (fun p => p.1 = ℓ)).map (fun p => p.2)

/-- Is `ℓ` a key of the dictionary (`location in mapping`)? -/
def keyMem (m : List (Location × List α)) (ℓ : Location) : Bool :=
  (entryAt m ℓ).isSome

/-- `mapping.get(location, [])`. -/
def listAt (m : List (Location × List α)) (ℓ : Location) : List α :=
  (entryAt m ℓ).getD []

/-- `defaultdict(list)[location].extend(xs)` / `.append(x)`: extend the
entry in place, creating an entry at the end when the key is absent. -/
def dAppend : List (Location × List α) → Location → List α →
    List (Location × List α)
  | [], ℓ, xs => [(ℓ, xs)]
  | p :: rest, ℓ, xs =>
    if p.1 = ℓ then (p.1, p.2 ++ xs) :: rest else p :: dAppend rest ℓ xs

/-- `set.add` on a set represented as a duplicate-free insertion list. -/
def insertNew (s : List Nat) (c : Nat) : List Nat :=
  if s.contains c then s else s ++ [c]

/-- `set.update`. -/
def setUnion (s t : List Nat) : List Nat := t.foldl insertNew s

/-- `defaultdict(set)[location].update(cs)`: the defaultdict access creates
a (possibly empty) entry even when `cs` is empty. -/
def dUnion : List (Location × List Nat) → Location → List Nat →
    List (Location × List Nat)
  | [], ℓ, cs => [(ℓ, setUnion [] cs)]
  | p :: rest, ℓ, cs =>
    if p.1 = ℓ then (p.1, setUnion p.2 cs) :: rest else p :: dUnion rest ℓ cs

end Issues

open Issues in
/-- `ValidationIssues`: location-keyed errors, warnings and blocking code
sets (`_errors`, `_warnings`, `_stop_proceeding`).  Warnings are carried
by their numeric code. -/
structure ValidationIssues where
  errors : List (Location × List VErr)
  warnings : List (Location × List Nat)
  stopProceeding : List (Location × List Nat)

namespace Issues

def emptyIssues : ValidationIssues := ⟨[], [], []⟩

/-- `ValidationIssues.add_error(issue, proceed, location)`. -/
def addError (I : ValidationIssues) (e : VErr) (proceed : Bool)
    (ℓ : Location) : ValidationIssues :=
  { I with
    errors := dAppend I.errors ℓ [e]
    stopProceeding :=
      if proceed then I.stopProceeding else dUnion I.stopProceeding ℓ [e.code] }

/-- `ValidationIssues.add_warning(issue, location)`. -/
def addWarning (I : ValidationIssues) (w : Nat) (ℓ : Location) :
    ValidationIssues :=
  { I with warnings := dAppend I.warnings ℓ [w] }

/-- The first loop of `ValidationIssues.merge`: for every error entry of
the merged tree, extend the prefixed error entry and update the prefixed
blocking entry with the merged tree's blocking codes at that location
(the defaultdict access creates the blocking entry even when no codes are
transferred). -/
def mergeErrList (stopSrc : List (Location × List Nat)) (pre : Location) :
    ValidationIssues → List (Location × List VErr) → ValidationIssues
  | I, [] => I
  | I, e :: rest =>
    mergeErrList stopSrc pre
      { I with
        errors := dAppend I.errors (pre ++ e.1) e.2
        stopProceeding :=
          dUnion I.stopProceeding (pre ++ e.1) (listAt stopSrc e.1) }
      rest

/-- The second loop of `ValidationIssues.merge`: extend the prefixed
warning entries. -/
def mergeWarnList (pre : Location) :
    ValidationIssues → List (Location × List Nat) → ValidationIssues
  | I, [] => I
  | I, w :: rest =>
    mergeWarnList pre { I with warnings := dAppend I.warnings (pre ++ w.1) w.2 }
      rest

/-- `ValidationIssues.merge(issues, location)`: the error/blocking loop
followed by the warning loop.  Blocking codes at locations where the
merged tree has no errors are never visited. -/
def mergeIssues (I other : ValidationIssues) (pre : Location) :
    ValidationIssues :=
  mergeWarnList pre (mergeErrList other.stopProceeding pre I other.errors)
    other.warnings

/-- `ValidationIssues.can_proceed(*locations)` (default: the root): false
when any prefix of any queried location is a key of `_stop_proceeding`. -/
def canProceed (I : ValidationIssues) (locs : List Location) : Bool :=
  let locs := if locs.isEmpty then [([] : Location)] else locs
  locs.all (fun ℓ =>
    (List.range (ℓ.length + 1)).all
      (fun i => !keyMem I.stopProceeding (ℓ.take i)))

/-- Strips `pre` from the front of a location: `some ℓ` exactly when the
location is `pre ++ ℓ`.  Used to state which entries a prefixed merge
touches. -/
def stripPre : Location → Location → Option Location
  | [], ℓ => some ℓ
  | _ :: _, [] => none
  | a :: p, b :: ℓ => if a = b then stripPre p ℓ else none

/-- `ValidationIssues.has_errors(*locations)` (default: the root): true when
some error location extends one of the queried locations. -/
def hasErrors (I : ValidationIssues) (locs : List Location) : Bool :=
  let locs := if locs.isEmpty then [([] : Location)] else locs
  locs.any (fun ℓ => I.errors.any (fun p => p.1.take ℓ.length = ℓ))

end Issues

namespace Issues

/-- The `ValidationIssues` values produced by `add_error` / `add_warning` /
`merge` starting from empty trees. -/
inductive ReachableIssues : ValidationIssues → Prop where
  | empty : ReachableIssues emptyIssues
  | addErr (I : ValidationIssues) (e : VErr) (proceed : Bool) (ℓ : Location) :
      ReachableIssues I → ReachableIssues (addError I e proceed ℓ)
  | addWarn (I : ValidationIssues) (w : Nat) (ℓ : Location) :
      ReachableIssues I → ReachableIssues (addWarning I w ℓ)
  | mrg (I J : ValidationIssues) (p : Location) :
      ReachableIssues I → ReachableIssues J →
      ReachableIssues (mergeIssues I J p)

/-- Key uniqueness of the error and warning dictionaries (Python
dictionaries cannot repeat a key). -/
def WFKeys (I : ValidationIssues) : Prop :=
  (I.errors.map Prod.fst).Nodup ∧ (I.warnings.map Prod.fst).Nodup ∧
    (I.stopProceeding.map Prod.fst).Nodup

/-- Issue trees with identical location-to-errors, location-to-warnings and
location-to-blocking-codes content (the final content `merge` order must
not affect). -/
def IssuesEquiv (I J : ValidationIssues) : Prop :=
  (∀ ℓ, entryAt I.errors ℓ = entryAt J.errors ℓ) ∧
    (∀ ℓ, entryAt I.warnings ℓ = entryAt J.warnings ℓ) ∧
    (∀ ℓ, entryAt I.stopProceeding ℓ = entryAt J.stopProceeding ℓ)

/-- The prefixed locations a merge of the tree under the given prefix
writes to. -/
def touched (t : ValidationIssues × Location) : List Location :=
  (t.1.errors.map (fun e => t.2 ++ e.1)) ++
    (t.1.warnings.map (fun w => t.2 ++ w.1))

/-- Two prefixed trees whose merges write to disjoint location sets. -/
def TouchDisjoint (a b : ValidationIssues × Location) : Prop :=
  ∀ ℓ, ¬(ℓ ∈ touched a ∧ ℓ ∈ touched b)

/-- Merging a sequence of prefixed trees into an accumulator, one
`merge(tree, prefix)` call per element. -/
def foldMerges (S : ValidationIssues) :
    List (ValidationIssues × Location) → ValidationIssues
  | [] => S
  | t :: ts => foldMerges (mergeIssues S t.1 t.2) ts

end Issues

namespace Data

/-- The sub-attribute read of `SCIMData.get` as the specification words it:
resolve the top-level attribute case-insensitively; a container parent
yields its (case-insensitive) sub-attribute entry, `Missing` when absent;
a list parent yields the parallel element-wise list with the caller's
default for non-container items; any other parent yields the caller's
default. -/
def specGetSub (d : SCIMData) (attr sub : String) (default : Value) : Value :=
  match d.find? (fun p => lc p.1 == lc attr) with
  | none => default
  | some (_, Value.vData entries) =>
    (match entries.find? (fun q => lc q.1 == lc sub) with
     | some q => q.2
     | none => Value.vMissing)
  | some (_, Value.vList items) =>
    Value.vList (items.map (fun it =>
      match it with
      | Value.vData entries =>
        (match entries.find? (fun q => lc q.1 == lc sub) with
         | some q => q.2
         | none => Value.vMissing)
      | _ => default))
  | some _ => default

end Data

/-! ## Attribute types and validation (`src/data/attributes.py`) -/

open Data Issues

/-- The simple (non-complex) attribute base types the claims quantify over;
`unknown` is the `Unknown` attribute whose `_validate_type` accepts
everything. -/
inductive AttrType where
  | boolean
  | integer
  | string
  | unknown
  deriving Repr, DecidableEq

/-- The `SCIM_TYPE` string used as the `expected` context of a bad-type
error. -/
def scimTypeName : AttrType → String
  | .boolean => "boolean"
  | .integer => "integer"
  | .string => "string"
  | .unknown => "unknown"

/-- `isinstance(value, self.BASE_TYPES)`; Python's `bool` is a subtype of
`int`, so integers accept booleans too. -/
def typeOk : AttrType → Value → Bool
  | .boolean, .vBool _ => true
  | .integer, .vInt _ => true
  | .integer, .vBool _ => true
  | .string, .vStr _ => true
  | .unknown, _ => true
  | _, _ => false

/-- `ValidationError.bad_type(expected)` (code 2). -/
def badType (expected : String) : VErr := ⟨2, expected⟩

/-- `Attribute._validate_type` for simple attributes: a single
non-proceedable bad-type error at the root when the isinstance check
fails (`Unknown` never fails). -/
def elemValidateType (t : AttrType) (v : Value) : ValidationIssues :=
  if typeOk t v then emptyIssues
  else addError emptyIssues (badType (scimTypeName t)) false []

/-- One iteration of the element loop of `Attribute.validate_type`: check
the element, merge its issues at the element index, and overwrite it with
`Invalid` when its issues cannot proceed (modelling the in-place
`value[i] = Invalid`). -/
def validateTypeStep (elemCheck : Value → ValidationIssues)
    (acc : ValidationIssues × List Value × Nat) (item : Value) :
    ValidationIssues × List Value × Nat :=
  let (issues, out, i) := acc
  let elemIssues := elemCheck item
  let issues := mergeIssues issues elemIssues [LocSeg.n i]
  let item' := if canProceed elemIssues [] then item else Value.vInvalid
  (issues, out ++ [item'], i + 1)

/-- `Attribute.validate_type`, parameterised by the subclass's
`_validate_type`.  For a multi-valued attribute a non-list value yields a
single non-proceedable `bad_type('list')` error at the attribute
location; otherwise the element loop runs. -/
def validateTypeWith (elemCheck : Value → ValidationIssues) (multi : Bool)
    (v : Value) : ValidationIssues × Value :=
  if multi then
    match v with
    | .vList xs =>
      let (issues, out, _) :=
        xs.foldl (validateTypeStep elemCheck) (emptyIssues, [], 0)
      (issues, Value.vList out)
    | _ => (addError emptyIssues (badType "list") false [], v)
  else
    let issues := mergeIssues emptyIssues (elemCheck v) []
    (issues, v)

/-- Configuration of a simple attribute: its base type, cardinality and
canonical-value settings (`canonical_values`, `restrict_canonical_values`,
and `String`'s `case_exact`). -/
structure AttrCfg where
  ty : AttrType
  multiValued : Bool
  canonicalValues : Option (List Value) := none
  restrictCanonical : Bool := false
  caseExact : Bool := false

/-- `value.lower()` on a string payload. -/
def lcValue : Value → Value
  | .vStr s => .vStr (lc s)
  | v => v

/-- The canonical-value list as stored at construction time:
`AttributeWithCaseExact.__init__` lowercases it for non-case-exact string
attributes. -/
def storedCanonical (c : AttrCfg) : Option (List Value) :=
  match c.canonicalValues with
  | none => none
  | some cs =>
    if c.ty = AttrType.string ∧ ¬c.caseExact then some (cs.map lcValue)
    else some cs

/-- `_is_canonical`: no canonical set means everything is canonical;
otherwise membership (by Python `==`), with the case-folded fallback of
`AttributeWithCaseExact` for non-case-exact string attributes. -/
def isCanonical (c : AttrCfg) (v : Value) : Bool :=
  match storedCanonical c with
  | none => true
  | some cs =>
    cs.any (fun item => Value.beq item v) ||
      (decide (c.ty = AttrType.string) && !c.caseExact &&
        cs.any (fun item => Value.beq item (lcValue v)))

/-- `ValidationError.must_be_one_of` (code 9). -/
def mustBeOneOf : VErr := ⟨9, ""⟩

/-- `Attribute._validate`: the canonical-value membership check — a
non-proceedable error when restricted, else an advisory warning
(`should_be_one_of`, warning code 1). -/
def elemValidateValue (c : AttrCfg) (v : Value) : ValidationIssues :=
  if isCanonical c v then emptyIssues
  else if c.restrictCanonical then addError emptyIssues mustBeOneOf false []
  else addWarning emptyIssues 1 []

/-- The `for validator in self._validators` loop of `Attribute.validate`:
before each validator the root `can_proceed` is consulted and the loop
breaks when it fails. -/
def runValidators (issues : ValidationIssues) (v : Value) :
    List (Value → ValidationIssues) → ValidationIssues
  | [] => issues
  | f :: fs =>
    if !canProceed issues [] then issues
    else runValidators (mergeIssues issues (f v) []) v fs

/-- One iteration of the element loop of `Attribute.validate`: skip
elements already `Invalid`; otherwise run the element-level `_validate`,
merge its issues at the element index, and overwrite the element with
`Invalid` when they cannot proceed. -/
def validateElemStep (elemValidate : Value → ValidationIssues × Value)
    (acc : ValidationIssues × List Value × Nat) (item : Value) :
    ValidationIssues × List Value × Nat :=
  let (iss, out, i) := acc
  match item with
  | .vInvalid => (iss, out ++ [item], i + 1)
  | _ =>
    let elemIss := (elemValidate item).1
    let item' := (elemValidate item).2
    let iss := mergeIssues iss elemIss [LocSeg.n i]
    let item'' := if canProceed elemIss [] then item' else Value.vInvalid
    (iss, out ++ [item''], i + 1)

/-- `Attribute.validate`, parameterised by the subclass's `_validate_type`
and `_validate` and by the attribute's validators.  `None` short-circuits;
the type check runs first and its issues decide the root `can_proceed`
gate; then per-element (or scalar) value checks run, elements whose value
check cannot proceed being overwritten with `Invalid` (elements already
`Invalid` from the type check are skipped); finally the validators run on
the (mutated) value. -/
def validateWith (elemCheck : Value → ValidationIssues)
    (elemValidate : Value → ValidationIssues × Value)
    (validators : List (Value → ValidationIssues))
    (multi : Bool) (v : Value) : ValidationIssues × Value :=
  match v with
  | .vNull => (emptyIssues, v)
  | _ =>
    let (tIssues, v₁) := validateTypeWith elemCheck multi v
    let issues := mergeIssues emptyIssues tIssues []
    if !canProceed issues [] then (issues, v₁)
    else
      let (issues, v₂) :=
        if multi then
          match v₁ with
          | .vList xs =>
            let (iss, out, _) :=
              xs.foldl (validateElemStep elemValidate) (issues, [], 0)
            (iss, Value.vList out)
          | _ => (issues, v₁)
        else
          let (elemIss, v') := elemValidate v₁
          (mergeIssues issues elemIss [], v')
      (runValidators issues v₂ validators, v₂)

/-- `Attribute.validate_type` of a simple attribute. -/
def validateTypeSimple (c : AttrCfg) (v : Value) : ValidationIssues × Value :=
  validateTypeWith (elemValidateType c.ty) c.multiValued v

/-- `Attribute.validate` of a simple attribute (no custom validators; the
base `_validate` does not rewrite the value). -/
def validateSimple (c : AttrCfg) (v : Value) : ValidationIssues × Value :=
  validateWith (elemValidateType c.ty) (fun u => (elemValidateValue c u, u)) []
    c.multiValued v

/-! ### Complex attributes -/

/-- A sub-attribute of a `Complex` attribute: its declared name and its
simple-attribute configuration. -/
structure SubAttrDef where
  name : String
  cfg : AttrCfg

/-- `getattr(self.attrs, name, None) is not None`: case-insensitive search
among the sub-attribute names. -/
def hasSubAttr (subs : List SubAttrDef) (nm : String) : Bool :=
  subs.any (fun s => ciEq s.name nm)

/-- The two structural validators `Complex.__init__` registers
automatically. -/
inductive StructValidatorKind where
  | singlePrimary
  | typeValuePairs
  deriving Repr, DecidableEq

/-- The validator list built by `Complex.__init__` when no custom validators
are supplied: for a multi-valued complex attribute,
`validate_single_primary_value` when a `primary` sub-attribute exists, and
`validate_type_value_pairs` when both `type` and `value` exist. -/
def complexAutoValidators (multi : Bool) (subs : List SubAttrDef) :
    List StructValidatorKind :=
  if multi then
    (if hasSubAttr subs "primary" then [StructValidatorKind.singlePrimary] else []) ++
      (if hasSubAttr subs "type" && hasSubAttr subs "value" then
        [StructValidatorKind.typeValuePairs]
      else [])
  else []

/-- `validate_single_primary_value`'s count of non-`Invalid` items whose
`primary` entry `is True`. -/
def countPrimary (items : List Value) : Nat :=
  items.foldl
    (fun n item =>
      match item with
      | .vInvalid => n
      | .vData entries =>
        match getPlain entries "primary" Value.vMissing with
        | .vBool true => n + 1
        | _ => n
      | _ => n)
    0

/-- `ValidationError.multiple_primary_values` (code 15). -/
def multiplePrimaryValues : VErr := ⟨15, ""⟩

/-- `validate_single_primary_value`: a proceedable error when more than one
element is primary. -/
def singlePrimaryIssues (items : List Value) : ValidationIssues :=
  if countPrimary items > 1 then
    addError emptyIssues multiplePrimaryValues true []
  else emptyIssues

/-- Python truthiness of the payload values (`bool(x)`); the `Missing` and
`Invalid` sentinels are falsy by their `__bool__`. -/
def truthy : Value → Bool
  | .vNull => false
  | .vBool b => b
  | .vInt n => n != 0
  | .vStr s => !s.isEmpty
  | .vList xs => !xs.isEmpty
  | .vData es => !es.isEmpty
  | .vMissing => false
  | .vInvalid => false

/-- Python `==` on `(type, value)` dictionary keys. -/
def pairBeq (p q : Value × Value) : Bool :=
  Value.beq p.1 q.1 && Value.beq p.2 q.2

/-- `defaultdict(int)`-style counter bump for a `(type, value)` pair. -/
def bumpPair (acc : List ((Value × Value) × Nat)) (p : Value × Value) :
    List ((Value × Value) × Nat) :=
  if acc.any (fun q => pairBeq q.1 p) then
    acc.map (fun q => if pairBeq q.1 p then (q.1, q.2 + 1) else q)
  else acc ++ [(p, 1)]

/-- The pair counts accumulated by `validate_type_value_pairs`: `Invalid`
items are skipped, and a pair is counted only when both its `type` and its
`value` are truthy. -/
def pairCounts (items : List Value) : List ((Value × Value) × Nat) :=
  items.foldl
    (fun acc item =>
      match item with
      | .vInvalid => acc
      | .vData entries =>
        let t := getPlain entries "type" Value.vMissing
        let v := getPlain entries "value" Value.vMissing
        if truthy t && truthy v then bumpPair acc (t, v) else acc
      | _ => acc)
    []

/-- `validate_type_value_pairs`: one `multiple_type_value_pairs` warning
(warning code 2) at the root per pair occurring more than once. -/
def typeValuePairsIssues (items : List Value) : ValidationIssues :=
  (pairCounts items).foldl
    (fun issues q => if q.2 > 1 then addWarning issues 2 [] else issues)
    emptyIssues

/-- Interpretation of an auto-registered validator as a function on the
(list) value it receives. -/
def runStructValidator : StructValidatorKind → Value → ValidationIssues
  | .singlePrimary, .vList items => singlePrimaryIssues items
  | .typeValuePairs, .vList items => typeValuePairsIssues items
  | _, _ => emptyIssues

/-- `Complex._validate_type`: `isinstance(value, (SCIMDataContainer, dict))`. -/
def complexTypeIssues (v : Value) : ValidationIssues :=
  match v with
  | .vData _ => emptyIssues
  | _ => addError emptyIssues (badType "complex") false []

/-- In-place replacement of the value stored under a case-insensitive key,
keeping the original casing and position (the aliasing effect of mutating
the object returned by `get`). -/
def updateCI (d : SCIMData) (key : String) (v : Value) : SCIMData :=
  d.map (fun p => if ciEq p.1 key then (p.1, v) else p)

/-- One iteration of the sub-attribute loop of `Complex._validate`: fetch
the value (skipping `Missing`), validate it with the sub-attribute,
overwrite it with `Invalid` when its issues cannot proceed, and merge the
sub-issues at the sub-attribute's name. -/
def complexElemStep (acc : ValidationIssues × SCIMData) (sub : SubAttrDef) :
    ValidationIssues × SCIMData :=
  let (issues, data) := acc
  match getPlain data sub.name Value.vMissing with
  | .vMissing => (issues, data)
  | subVal =>
    let subIssues := (validateSimple sub.cfg subVal).1
    let subVal' := (validateSimple sub.cfg subVal).2
    let data := updateCI data sub.name subVal'
    let data :=
      if canProceed subIssues [] then data
      else setPlain data sub.name Value.vInvalid
    (mergeIssues issues subIssues [LocSeg.s sub.name], data)

/-- `Complex._validate`: the sub-attribute loop over the element's
container. -/
def complexElemValidate (subs : List SubAttrDef) (item : Value) :
    ValidationIssues × Value :=
  match item with
  | .vData entries =>
    let (issues, data') := subs.foldl complexElemStep (emptyIssues, entries)
    (issues, Value.vData data')
  | _ => (emptyIssues, item)

/-- A `Complex` attribute: its sub-attribute collection and cardinality
(no custom validators; the structural validators are auto-registered). -/
structure ComplexCfg where
  subAttrs : List SubAttrDef
  multiValued : Bool

/-- `Complex(...).validate`: `Attribute.validate` instantiated with
`Complex._validate_type`, `Complex._validate` and the auto-registered
structural validators. -/
def complexValidate (cfg : ComplexCfg) (v : Value) : ValidationIssues × Value :=
  validateWith complexTypeIssues (complexElemValidate cfg.subAttrs)
    ((complexAutoValidators cfg.multiValued cfg.subAttrs).map runStructValidator)
    cfg.multiValued v

/-! ## Schema registry -/

/-- The process-wide schema registry: schema URI → is-extension flag, as
consumed by `scimpler/container.py` (`schemas.get(schema)` yields the
extension flag of `BoundedAttrRep`). -/
abbrev SchemaRegistry := List (String × Bool)

/-- `schemas.get(uri)`: case-insensitive lookup (`SchemaURI` hashes and
compares by its lowercase form). -/
def lookupSchema (reg : SchemaRegistry) (uri : String) : Option Bool :=
  (reg.find? (fun p => ciEq p.1 uri)).map (fun p => p.2)

/-- The duplicate-registration failure of `register_schema`. -/
inductive RegErr where
  | duplicateSchema
  deriving Repr, DecidableEq

/-- Modelled from the spec: `register_schema(uri, is_extension)` of
`scimpler/registry.py` — the registry whose `schemas` table
`scimpler/container.py` reads — is not among the sources (the present
`src/registry.py` is an earlier-generation module whose `register_schema`
stores schema objects, not the is-extension flag).  Per the spec,
registration "fails with `DuplicateSchema` if the URI is already
registered".  The state-passing result pairs the outcome with the
(possibly updated) registry. -/
def registerSchema (reg : SchemaRegistry) (uri : String) (isExtension : Bool) :
    Option RegErr × SchemaRegistry :=
  if (lookupSchema reg uri).isSome then (some RegErr.duplicateSchema, reg)
  else (none, reg ++ [(uri, isExtension)])

/-! ## Lemmas about the issue dictionaries -/

namespace Issues

theorem entryAt_cons (p : Location × List α) (m : List (Location × List α))
    (ℓ : Location) :
    entryAt (p :: m) ℓ = if p.1 = ℓ then some p.2 else entryAt m ℓ := by
  by_cases h : p.1 = ℓ <;> simp [entryAt, List.find?, h]

theorem entryAt_dAppend (m : List (Location × List α)) (ℓ ℓ' : Location)
    (xs : List α) :
    entryAt (dAppend m ℓ xs) ℓ' =
      if ℓ' = ℓ then some (listAt m ℓ ++ xs) else entryAt m ℓ' := by
  induction m with
  | nil =>
    by_cases h : ℓ' = ℓ
    · subst h
      simp [dAppend, entryAt, List.find?, listAt]
    · simp [dAppend, entryAt, List.find?, listAt, h, Ne.symm h]
  | cons p rest ih =>
    simp only [dAppend]
    by_cases hp : p.1 = ℓ <;> by_cases h : ℓ' = ℓ
    · subst h
      simp [hp, entryAt_cons, listAt]
    · have hq : p.1 ≠ ℓ' := fun hc => h (hc.symm.trans hp)
      simp [hp, h, hq, Ne.symm h, entryAt_cons]
    · subst h
      simp [hp, entryAt_cons, listAt, ih]
    · by_cases hq : p.1 = ℓ'
      · simp [hp, h, hq, entryAt_cons]
      · simp [hp, h, hq, entryAt_cons, ih]

theorem entryAt_dUnion (m : List (Location × List Nat)) (ℓ ℓ' : Location)
    (cs : List Nat) :
    entryAt (dUnion m ℓ cs) ℓ' =
      if ℓ' = ℓ then some (setUnion (listAt m ℓ) cs) else entryAt m ℓ' := by
  induction m with
  | nil =>
    by_cases h : ℓ' = ℓ
    · subst h
      simp [dUnion, entryAt, List.find?, listAt]
    · simp [dUnion, entryAt, List.find?, listAt, h, Ne.symm h]
  | cons p rest ih =>
    simp only [dUnion]
    by_cases hp : p.1 = ℓ <;> by_cases h : ℓ' = ℓ
    · subst h
      simp [hp, entryAt_cons, listAt]
    · have hq : p.1 ≠ ℓ' := fun hc => h (hc.symm.trans hp)
      simp [hp, h, hq, Ne.symm h, entryAt_cons]
    · subst h
      simp [hp, entryAt_cons, listAt, ih]
    · by_cases hq : p.1 = ℓ'
      · simp [hp, h, hq, entryAt_cons]
      · simp [hp, h, hq, entryAt_cons, ih]

theorem mem_insertNew (s : List Nat) (c a : Nat) :
    a ∈ insertNew s c ↔ a ∈ s ∨ a = c := by
  by_cases h : c ∈ s
  · simp only [insertNew]
    rw [if_pos (by simpa using h)]
    exact ⟨Or.inl, fun x => x.elim id (fun hc => hc ▸ h)⟩
  · simp only [insertNew]
    rw [if_neg (by simpa using h)]
    simp

theorem mem_setUnion (s t : List Nat) (a : Nat) :
    a ∈ setUnion s t ↔ a ∈ s ∨ a ∈ t := by
  induction t generalizing s with
  | nil => simp [setUnion]
  | cons c t ih =>
    show a ∈ setUnion (insertNew s c) t ↔ _
    rw [ih, mem_insertNew]
    simp only [List.mem_cons]
    tauto

theorem entryAt_eq_none_of_not_mem (m : List (Location × List α)) (ℓ : Location)
    (h : ℓ ∉ m.map Prod.fst) : entryAt m ℓ = none := by
  induction m with
  | nil => rfl
  | cons p rest ih =>
    simp only [List.map_cons, List.mem_cons, not_or] at h
    rw [entryAt_cons, if_neg (fun hc => h.1 hc.symm), ih h.2]

theorem mem_of_entryAt_some (m : List (Location × List α)) (ℓ : Location)
    (xs : List α) (h : entryAt m ℓ = some xs) : ℓ ∈ m.map Prod.fst := by
  induction m with
  | nil => cases h
  | cons p rest ih =>
    simp only [List.map_cons, List.mem_cons]
    by_cases hp : p.1 = ℓ
    · exact Or.inl hp.symm
    · rw [entryAt_cons, if_neg hp] at h
      exact Or.inr (ih h)

theorem listAt_dAppend_ne (m : List (Location × List α)) (ℓ ℓ' : Location)
    (xs : List α) (h : ℓ' ≠ ℓ) :
    listAt (dAppend m ℓ xs) ℓ' = listAt m ℓ' := by
  unfold listAt
  rw [entryAt_dAppend, if_neg h]

theorem listAt_dUnion_ne (m : List (Location × List Nat)) (ℓ ℓ' : Location)
    (cs : List Nat) (h : ℓ' ≠ ℓ) :
    listAt (dUnion m ℓ cs) ℓ' = listAt m ℓ' := by
  unfold listAt
  rw [entryAt_dUnion, if_neg h]

theorem stripPre_append (p ℓ : Location) : stripPre p (p ++ ℓ) = some ℓ := by
  induction p with
  | nil => rfl
  | cons a p ih => simp [stripPre, ih]

theorem stripPre_eq_some (p ℓ' ℓ : Location) :
    stripPre p ℓ' = some ℓ ↔ ℓ' = p ++ ℓ := by
  induction p generalizing ℓ' with
  | nil =>
    simp only [stripPre, List.nil_append, Option.some_inj]
  | cons a p ih =>
    cases ℓ' with
    | nil => simp [stripPre]
    | cons b t =>
      by_cases h : a = b
      · subst h
        simp [stripPre, ih]
      · simp [stripPre, h, Ne.symm h]

/-! ### How `merge` transforms each dictionary -/

theorem mergeErrList_warnings (s : List (Location × List Nat)) (p : Location)
    (I : ValidationIssues) (es : List (Location × List VErr)) :
    (mergeErrList s p I es).warnings = I.warnings := by
  induction es generalizing I with
  | nil => rfl
  | cons e rest ih => simp [mergeErrList, ih]

theorem mergeWarnList_errors (p : Location) (I : ValidationIssues)
    (ws : List (Location × List Nat)) :
    (mergeWarnList p I ws).errors = I.errors := by
  induction ws generalizing I with
  | nil => rfl
  | cons w rest ih => simp [mergeWarnList, ih]

theorem mergeWarnList_stopProceeding (p : Location) (I : ValidationIssues)
    (ws : List (Location × List Nat)) :
    (mergeWarnList p I ws).stopProceeding = I.stopProceeding := by
  induction ws generalizing I with
  | nil => rfl
  | cons w rest ih => simp [mergeWarnList, ih]

theorem mergeErrList_errors_untouched (s : List (Location × List Nat))
    (p : Location) (es : List (Location × List VErr)) (I : ValidationIssues)
    (ℓ' : Location) (h : stripPre p ℓ' = none) :
    entryAt (mergeErrList s p I es).errors ℓ' = entryAt I.errors ℓ' := by
  induction es generalizing I with
  | nil => rfl
  | cons e rest ih =>
    simp only [mergeErrList]
    rw [ih]
    rw [entryAt_dAppend, if_neg]
    intro hc
    rw [hc, stripPre_append] at h
    cases h

theorem mergeErrList_stop_untouched (s : List (Location × List Nat))
    (p : Location) (es : List (Location × List VErr)) (I : ValidationIssues)
    (ℓ' : Location) (h : stripPre p ℓ' = none) :
    entryAt (mergeErrList s p I es).stopProceeding ℓ' =
      entryAt I.stopProceeding ℓ' := by
  induction es generalizing I with
  | nil => rfl
  | cons e rest ih =>
    simp only [mergeErrList]
    rw [ih]
    rw [entryAt_dUnion, if_neg]
    intro hc
    rw [hc, stripPre_append] at h
    cases h

theorem mergeWarnList_warnings_untouched (p : Location)
    (ws : List (Location × List Nat)) (I : ValidationIssues)
    (ℓ' : Location) (h : stripPre p ℓ' = none) :
    entryAt (mergeWarnList p I ws).warnings ℓ' = entryAt I.warnings ℓ' := by
  induction ws generalizing I with
  | nil => rfl
  | cons w rest ih =>
    simp only [mergeWarnList]
    rw [ih]
    rw [entryAt_dAppend, if_neg]
    intro hc
    rw [hc, stripPre_append] at h
    cases h

theorem mergeErrList_errors_nokey (s : List (Location × List Nat))
    (p : Location) (es : List (Location × List VErr)) (I : ValidationIssues)
    (ℓ : Location) (h : entryAt es ℓ = none) :
    entryAt (mergeErrList s p I es).errors (p ++ ℓ) =
      entryAt I.errors (p ++ ℓ) := by
  induction es generalizing I with
  | nil => rfl
  | cons e rest ih =>
    rw [entryAt_cons] at h
    by_cases he : e.1 = ℓ
    · rw [if_pos he] at h
      cases h
    · rw [if_neg he] at h
      simp only [mergeErrList]
      rw [ih _ h]
      rw [entryAt_dAppend, if_neg]
      intro hc
      exact he (List.append_cancel_left hc).symm

theorem mergeErrList_stop_nokey (s : List (Location × List Nat))
    (p : Location) (es : List (Location × List VErr)) (I : ValidationIssues)
    (ℓ : Location) (h : entryAt es ℓ = none) :
    entryAt (mergeErrList s p I es).stopProceeding (p ++ ℓ) =
      entryAt I.stopProceeding (p ++ ℓ) := by
  induction es generalizing I with
  | nil => rfl
  | cons e rest ih =>
    rw [entryAt_cons] at h
    by_cases he : e.1 = ℓ
    · rw [if_pos he] at h
      cases h
    · rw [if_neg he] at h
      simp only [mergeErrList]
      rw [ih _ h]
      rw [entryAt_dUnion, if_neg]
      intro hc
      exact he (List.append_cancel_left hc).symm

theorem mergeWarnList_warnings_nokey (p : Location)
    (ws : List (Location × List Nat)) (I : ValidationIssues)
    (ℓ : Location) (h : entryAt ws ℓ = none) :
    entryAt (mergeWarnList p I ws).warnings (p ++ ℓ) =
      entryAt I.warnings (p ++ ℓ) := by
  induction ws generalizing I with
  | nil => rfl
  | cons w rest ih =>
    rw [entryAt_cons] at h
    by_cases hw : w.1 = ℓ
    · rw [if_pos hw] at h
      cases h
    · rw [if_neg hw] at h
      simp only [mergeWarnList]
      rw [ih _ h]
      rw [entryAt_dAppend, if_neg]
      intro hc
      exact hw (List.append_cancel_left hc).symm

theorem mergeErrList_errors_found (s : List (Location × List Nat))
    (p : Location) (es : List (Location × List VErr)) (I : ValidationIssues)
    (ℓ : Location) (ys : List VErr)
    (hnd : (es.map Prod.fst).Nodup) (h : entryAt es ℓ = some ys) :
    entryAt (mergeErrList s p I es).errors (p ++ ℓ) =
      some (listAt I.errors (p ++ ℓ) ++ ys) := by
  induction es generalizing I with
  | nil => cases h
  | cons e rest ih =>
    rw [entryAt_cons] at h
    rw [List.map_cons, List.nodup_cons] at hnd
    simp only [mergeErrList]
    by_cases he : e.1 = ℓ
    · rw [if_pos he] at h
      injection h with h
      subst h
      subst he
      have hrest : entryAt rest e.1 = none :=
        entryAt_eq_none_of_not_mem _ _ hnd.1
      rw [mergeErrList_errors_nokey _ _ _ _ _ hrest]
      rw [entryAt_dAppend, if_pos rfl]
    · rw [if_neg he] at h
      rw [ih _ hnd.2 h,
        listAt_dAppend_ne _ _ _ _ (fun hc => he (List.append_cancel_left hc).symm)]

theorem mergeErrList_stop_found (s : List (Location × List Nat))
    (p : Location) (es : List (Location × List VErr)) (I : ValidationIssues)
    (ℓ : Location) (ys : List VErr)
    (hnd : (es.map Prod.fst).Nodup) (h : entryAt es ℓ = some ys) :
    entryAt (mergeErrList s p I es).stopProceeding (p ++ ℓ) =
      some (setUnion (listAt I.stopProceeding (p ++ ℓ)) (listAt s ℓ)) := by
  induction es generalizing I with
  | nil => cases h
  | cons e rest ih =>
    rw [entryAt_cons] at h
    rw [List.map_cons, List.nodup_cons] at hnd
    simp only [mergeErrList]
    by_cases he : e.1 = ℓ
    · rw [if_pos he] at h
      subst he
      have hrest : entryAt rest e.1 = none :=
        entryAt_eq_none_of_not_mem _ _ hnd.1
      rw [mergeErrList_stop_nokey _ _ _ _ _ hrest]
      rw [entryAt_dUnion, if_pos rfl]
    · rw [if_neg he] at h
      rw [ih _ hnd.2 h,
        listAt_dUnion_ne _ _ _ _ (fun hc => he (List.append_cancel_left hc).symm)]

theorem mergeWarnList_warnings_found (p : Location)
    (ws : List (Location × List Nat)) (I : ValidationIssues)
    (ℓ : Location) (ys : List Nat)
    (hnd : (ws.map Prod.fst).Nodup) (h : entryAt ws ℓ = some ys) :
    entryAt (mergeWarnList p I ws).warnings (p ++ ℓ) =
      some (listAt I.warnings (p ++ ℓ) ++ ys) := by
  induction ws generalizing I with
  | nil => cases h
  | cons w rest ih =>
    rw [entryAt_cons] at h
    rw [List.map_cons, List.nodup_cons] at hnd
    simp only [mergeWarnList]
    by_cases hw : w.1 = ℓ
    · rw [if_pos hw] at h
      injection h with h
      subst h
      subst hw
      have hrest : entryAt rest w.1 = none :=
        entryAt_eq_none_of_not_mem _ _ hnd.1
      rw [mergeWarnList_warnings_nokey _ _ _ _ hrest]
      rw [entryAt_dAppend, if_pos rfl]
    · rw [if_neg hw] at h
      rw [ih _ hnd.2 h,
        listAt_dAppend_ne _ _ _ _ (fun hc => hw (List.append_cancel_left hc).symm)]

/-! ### The same facts, packaged for `mergeIssues` -/

theorem mergeIssues_errors_untouched (I o : ValidationIssues) (p ℓ' : Location)
    (h : stripPre p ℓ' = none) :
    entryAt (mergeIssues I o p).errors ℓ' = entryAt I.errors ℓ' := by
  rw [mergeIssues, mergeWarnList_errors, mergeErrList_errors_untouched _ _ _ _ _ h]

theorem mergeIssues_stop_untouched (I o : ValidationIssues) (p ℓ' : Location)
    (h : stripPre p ℓ' = none) :
    entryAt (mergeIssues I o p).stopProceeding ℓ' =
      entryAt I.stopProceeding ℓ' := by
  rw [mergeIssues, mergeWarnList_stopProceeding,
    mergeErrList_stop_untouched _ _ _ _ _ h]

theorem mergeIssues_warnings_untouched (I o : ValidationIssues)
    (p ℓ' : Location) (h : stripPre p ℓ' = none) :
    entryAt (mergeIssues I o p).warnings ℓ' = entryAt I.warnings ℓ' := by
  rw [mergeIssues, mergeWarnList_warnings_untouched _ _ _ _ h,
    mergeErrList_warnings]

theorem mergeIssues_errors_nokey (I o : ValidationIssues) (p ℓ : Location)
    (h : entryAt o.errors ℓ = none) :
    entryAt (mergeIssues I o p).errors (p ++ ℓ) = entryAt I.errors (p ++ ℓ) := by
  rw [mergeIssues, mergeWarnList_errors, mergeErrList_errors_nokey _ _ _ _ _ h]

theorem mergeIssues_stop_nokey (I o : ValidationIssues) (p ℓ : Location)
    (h : entryAt o.errors ℓ = none) :
    entryAt (mergeIssues I o p).stopProceeding (p ++ ℓ) =
      entryAt I.stopProceeding (p ++ ℓ) := by
  rw [mergeIssues, mergeWarnList_stopProceeding,
    mergeErrList_stop_nokey _ _ _ _ _ h]

theorem mergeIssues_warnings_nokey (I o : ValidationIssues) (p ℓ : Location)
    (h : entryAt o.warnings ℓ = none) :
    entryAt (mergeIssues I o p).warnings (p ++ ℓ) =
      entryAt I.warnings (p ++ ℓ) := by
  rw [mergeIssues, mergeWarnList_warnings_nokey _ _ _ _ h, mergeErrList_warnings]

theorem mergeIssues_errors_found (I o : ValidationIssues) (p ℓ : Location)
    (ys : List VErr) (hnd : (o.errors.map Prod.fst).Nodup)
    (h : entryAt o.errors ℓ = some ys) :
    entryAt (mergeIssues I o p).errors (p ++ ℓ) =
      some (listAt I.errors (p ++ ℓ) ++ ys) := by
  rw [mergeIssues, mergeWarnList_errors, mergeErrList_errors_found _ _ _ _ _ _ hnd h]

theorem mergeIssues_stop_found (I o : ValidationIssues) (p ℓ : Location)
    (ys : List VErr) (hnd : (o.errors.map Prod.fst).Nodup)
    (h : entryAt o.errors ℓ = some ys) :
    entryAt (mergeIssues I o p).stopProceeding (p ++ ℓ) =
      some (setUnion (listAt I.stopProceeding (p ++ ℓ))
        (listAt o.stopProceeding ℓ)) := by
  rw [mergeIssues, mergeWarnList_stopProceeding,
    mergeErrList_stop_found _ _ _ _ _ _ hnd h]

theorem mergeIssues_warnings_found (I o : ValidationIssues) (p ℓ : Location)
    (ys : List Nat) (hnd : (o.warnings.map Prod.fst).Nodup)
    (h : entryAt o.warnings ℓ = some ys) :
    entryAt (mergeIssues I o p).warnings (p ++ ℓ) =
      some (listAt I.warnings (p ++ ℓ) ++ ys) := by
  rw [mergeIssues, mergeWarnList_warnings_found _ _ _ _ _ hnd h,
    mergeErrList_warnings]

theorem mergeIssues_errors_left (I o : ValidationIssues) (p ℓ' : Location)
    (h : ∀ ℓ, stripPre p ℓ' = some ℓ → entryAt o.errors ℓ = none) :
    entryAt (mergeIssues I o p).errors ℓ' = entryAt I.errors ℓ' := by
  cases hs : stripPre p ℓ' with
  | none => exact mergeIssues_errors_untouched _ _ _ _ hs
  | some ℓ =>
    obtain rfl : ℓ' = p ++ ℓ := (stripPre_eq_some _ _ _).mp hs
    exact mergeIssues_errors_nokey _ _ _ _ (h ℓ hs)

theorem mergeIssues_stop_left (I o : ValidationIssues) (p ℓ' : Location)
    (h : ∀ ℓ, stripPre p ℓ' = some ℓ → entryAt o.errors ℓ = none) :
    entryAt (mergeIssues I o p).stopProceeding ℓ' =
      entryAt I.stopProceeding ℓ' := by
  cases hs : stripPre p ℓ' with
  | none => exact mergeIssues_stop_untouched _ _ _ _ hs
  | some ℓ =>
    obtain rfl : ℓ' = p ++ ℓ := (stripPre_eq_some _ _ _).mp hs
    exact mergeIssues_stop_nokey _ _ _ _ (h ℓ hs)

theorem mergeIssues_warnings_left (I o : ValidationIssues) (p ℓ' : Location)
    (h : ∀ ℓ, stripPre p ℓ' = some ℓ → entryAt o.warnings ℓ = none) :
    entryAt (mergeIssues I o p).warnings ℓ' = entryAt I.warnings ℓ' := by
  cases hs : stripPre p ℓ' with
  | none => exact mergeIssues_warnings_untouched _ _ _ _ hs
  | some ℓ =>
    obtain rfl : ℓ' = p ++ ℓ := (stripPre_eq_some _ _ _).mp hs
    exact mergeIssues_warnings_nokey _ _ _ _ (h ℓ hs)

/-! ### Key sets and key uniqueness -/

theorem mem_keys_dAppend (m : List (Location × List α)) (ℓ k : Location)
    (xs : List α) :
    k ∈ (dAppend m ℓ xs).map Prod.fst ↔ k ∈ m.map Prod.fst ∨ k = ℓ := by
  induction m with
  | nil => simp [dAppend]
  | cons p rest ih =>
    by_cases hp : p.1 = ℓ
    · subst hp
      simp only [dAppend, eq_self_iff_true, if_true, List.map_cons, List.mem_cons]
      tauto
    · simp only [dAppend, if_neg hp, List.map_cons, List.mem_cons, ih]
      tauto

theorem nodup_keys_dAppend (m : List (Location × List α)) (ℓ : Location)
    (xs : List α) (h : (m.map Prod.fst).Nodup) :
    ((dAppend m ℓ xs).map Prod.fst).Nodup := by
  induction m with
  | nil => simp [dAppend]
  | cons p rest ih =>
    rw [List.map_cons, List.nodup_cons] at h
    by_cases hp : p.1 = ℓ
    · subst hp
      simp only [dAppend, eq_self_iff_true, if_true, List.map_cons, List.nodup_cons]
      exact h
    · simp only [dAppend, if_neg hp, List.map_cons, List.nodup_cons]
      refine ⟨fun hc => ?_, ih h.2⟩
      rcases (mem_keys_dAppend _ _ _ _).mp hc with hm | hm
      · exact h.1 hm
      · exact hp hm

theorem mem_keys_dUnion (m : List (Location × List Nat)) (ℓ k : Location)
    (cs : List Nat) :
    k ∈ (dUnion m ℓ cs).map Prod.fst ↔ k ∈ m.map Prod.fst ∨ k = ℓ := by
  induction m with
  | nil => simp [dUnion]
  | cons p rest ih =>
    by_cases hp : p.1 = ℓ
    · subst hp
      simp only [dUnion, eq_self_iff_true, if_true, List.map_cons, List.mem_cons]
      tauto
    · simp only [dUnion, if_neg hp, List.map_cons, List.mem_cons, ih]
      tauto

theorem nodup_keys_dUnion (m : List (Location × List Nat)) (ℓ : Location)
    (cs : List Nat) (h : (m.map Prod.fst).Nodup) :
    ((dUnion m ℓ cs).map Prod.fst).Nodup := by
  induction m with
  | nil => simp [dUnion]
  | cons p rest ih =>
    rw [List.map_cons, List.nodup_cons] at h
    by_cases hp : p.1 = ℓ
    · subst hp
      simp only [dUnion, eq_self_iff_true, if_true, List.map_cons, List.nodup_cons]
      exact h
    · simp only [dUnion, if_neg hp, List.map_cons, List.nodup_cons]
      refine ⟨fun hc => ?_, ih h.2⟩
      rcases (mem_keys_dUnion _ _ _ _).mp hc with hm | hm
      · exact h.1 hm
      · exact hp hm

theorem wfKeys_mergeErrList (s : List (Location × List Nat)) (p : Location)
    (es : List (Location × List VErr)) (I : ValidationIssues)
    (h : WFKeys I) : WFKeys (mergeErrList s p I es) := by
  induction es generalizing I with
  | nil => exact h
  | cons e rest ih =>
    exact ih _ ⟨nodup_keys_dAppend _ _ _ h.1, h.2.1, nodup_keys_dUnion _ _ _ h.2.2⟩

theorem wfKeys_mergeWarnList (p : Location)
    (ws : List (Location × List Nat)) (I : ValidationIssues)
    (h : WFKeys I) : WFKeys (mergeWarnList p I ws) := by
  induction ws generalizing I with
  | nil => exact h
  | cons w rest ih =>
    exact ih _ ⟨h.1, nodup_keys_dAppend _ _ _ h.2.1, h.2.2⟩

theorem wfKeys_mergeIssues (I o : ValidationIssues) (p : Location)
    (h : WFKeys I) : WFKeys (mergeIssues I o p) :=
  wfKeys_mergeWarnList _ _ _ (wfKeys_mergeErrList _ _ _ _ h)

theorem wfKeys_addError (I : ValidationIssues) (e : VErr) (proceed : Bool)
    (ℓ : Location) (h : WFKeys I) : WFKeys (addError I e proceed ℓ) := by
  refine ⟨nodup_keys_dAppend _ _ _ h.1, h.2.1, ?_⟩
  by_cases hp : proceed
  · simp [addError, hp, h.2.2]
  · simp only [addError, if_neg hp]
    exact nodup_keys_dUnion _ _ _ h.2.2

theorem wfKeys_addWarning (I : ValidationIssues) (w : Nat) (ℓ : Location)
    (h : WFKeys I) : WFKeys (addWarning I w ℓ) :=
  ⟨h.1, nodup_keys_dAppend _ _ _ h.2.1, h.2.2⟩

theorem wfKeys_empty : WFKeys emptyIssues :=
  ⟨List.nodup_nil, List.nodup_nil, List.nodup_nil⟩

theorem wfKeys_reachable (I : ValidationIssues) (h : ReachableIssues I) :
    WFKeys I := by
  induction h with
  | empty => exact wfKeys_empty
  | addErr I e proceed ℓ _ ih => exact wfKeys_addError _ _ _ _ ih
  | addWarn I w ℓ _ ih => exact wfKeys_addWarning _ _ _ ih
  | mrg I J p _ _ ih _ => exact wfKeys_mergeIssues _ _ _ ih

/-! ### Content equivalence and merge-order invariance -/

theorem issuesEquiv_refl (I : ValidationIssues) : IssuesEquiv I I :=
  ⟨fun _ => rfl, fun _ => rfl, fun _ => rfl⟩

theorem issuesEquiv_symm {I J : ValidationIssues} (h : IssuesEquiv I J) :
    IssuesEquiv J I :=
  ⟨fun ℓ => (h.1 ℓ).symm, fun ℓ => (h.2.1 ℓ).symm, fun ℓ => (h.2.2 ℓ).symm⟩

theorem issuesEquiv_trans {I J K : ValidationIssues} (h₁ : IssuesEquiv I J)
    (h₂ : IssuesEquiv J K) : IssuesEquiv I K :=
  ⟨fun ℓ => (h₁.1 ℓ).trans (h₂.1 ℓ), fun ℓ => (h₁.2.1 ℓ).trans (h₂.2.1 ℓ),
    fun ℓ => (h₁.2.2 ℓ).trans (h₂.2.2 ℓ)⟩

theorem mergeIssues_congr (S T o : ValidationIssues) (p : Location)
    (ho : (o.errors.map Prod.fst).Nodup ∧ (o.warnings.map Prod.fst).Nodup)
    (h : IssuesEquiv S T) : IssuesEquiv (mergeIssues S o p) (mergeIssues T o p) := by
  refine ⟨fun ℓ' => ?_, fun ℓ' => ?_, fun ℓ' => ?_⟩
  · by_cases hw : ∃ ℓ ys, stripPre p ℓ' = some ℓ ∧ entryAt o.errors ℓ = some ys
    · obtain ⟨ℓ, ys, hs, he⟩ := hw
      obtain rfl : ℓ' = p ++ ℓ := (stripPre_eq_some _ _ _).mp hs
      rw [mergeIssues_errors_found _ _ _ _ _ ho.1 he,
        mergeIssues_errors_found _ _ _ _ _ ho.1 he, listAt, listAt, h.1]
    · push_neg at hw
      have hnone : ∀ ℓ, stripPre p ℓ' = some ℓ → entryAt o.errors ℓ = none := by
        intro ℓ hs
        cases he : entryAt o.errors ℓ with
        | none => rfl
        | some ys => exact absurd he (hw ℓ ys hs)
      rw [mergeIssues_errors_left _ _ _ _ hnone,
        mergeIssues_errors_left _ _ _ _ hnone, h.1]
  · by_cases hw : ∃ ℓ ys, stripPre p ℓ' = some ℓ ∧ entryAt o.warnings ℓ = some ys
    · obtain ⟨ℓ, ys, hs, he⟩ := hw
      obtain rfl : ℓ' = p ++ ℓ := (stripPre_eq_some _ _ _).mp hs
      rw [mergeIssues_warnings_found _ _ _ _ _ ho.2 he,
        mergeIssues_warnings_found _ _ _ _ _ ho.2 he, listAt, listAt, h.2.1]
    · push_neg at hw
      have hnone : ∀ ℓ, stripPre p ℓ' = some ℓ → entryAt o.warnings ℓ = none := by
        intro ℓ hs
        cases he : entryAt o.warnings ℓ with
        | none => rfl
        | some ys => exact absurd he (hw ℓ ys hs)
      rw [mergeIssues_warnings_left _ _ _ _ hnone,
        mergeIssues_warnings_left _ _ _ _ hnone, h.2.1]
  · by_cases hw : ∃ ℓ ys, stripPre p ℓ' = some ℓ ∧ entryAt o.errors ℓ = some ys
    · obtain ⟨ℓ, ys, hs, he⟩ := hw
      obtain rfl : ℓ' = p ++ ℓ := (stripPre_eq_some _ _ _).mp hs
      rw [mergeIssues_stop_found _ _ _ _ _ ho.1 he,
        mergeIssues_stop_found _ _ _ _ _ ho.1 he]
      simp only [listAt, h.2.2]
    · push_neg at hw
      have hnone : ∀ ℓ, stripPre p ℓ' = some ℓ → entryAt o.errors ℓ = none := by
        intro ℓ hs
        cases he : entryAt o.errors ℓ with
        | none => rfl
        | some ys => exact absurd he (hw ℓ ys hs)
      rw [mergeIssues_stop_left _ _ _ _ hnone,
        mergeIssues_stop_left _ _ _ _ hnone, h.2.2]

theorem noWrite_of_not_exists (m : List (Location × List α)) (p ℓ' : Location)
    (h : ¬∃ ℓ ys, stripPre p ℓ' = some ℓ ∧ entryAt m ℓ = some ys) :
    ∀ ℓ, stripPre p ℓ' = some ℓ → entryAt m ℓ = none := by
  intro ℓ hs
  cases he : entryAt m ℓ with
  | none => rfl
  | some ys => exact absurd ⟨ℓ, ys, hs, he⟩ h

theorem touched_of_errors (t : ValidationIssues × Location) (ℓ : Location)
    (ys : List VErr) (hs : entryAt t.1.errors ℓ = some ys) :
    t.2 ++ ℓ ∈ touched t := by
  have hm := mem_of_entryAt_some _ _ _ hs
  obtain ⟨e, hme, he⟩ := List.mem_map.mp hm
  exact List.mem_append_left _ (List.mem_map.mpr ⟨e, hme, by rw [he]⟩)

theorem touched_of_warnings (t : ValidationIssues × Location) (ℓ : Location)
    (ys : List Nat) (hs : entryAt t.1.warnings ℓ = some ys) :
    t.2 ++ ℓ ∈ touched t := by
  have hm := mem_of_entryAt_some _ _ _ hs
  obtain ⟨w, hmw, hwk⟩ := List.mem_map.mp hm
  exact List.mem_append_right _ (List.mem_map.mpr ⟨w, hmw, by rw [hwk]⟩)

theorem mergeIssues_swap (S : ValidationIssues)
    (a b : ValidationIssues × Location) (hA : WFKeys a.1) (hB : WFKeys b.1)
    (hd : TouchDisjoint a b) :
    IssuesEquiv (mergeIssues (mergeIssues S a.1 a.2) b.1 b.2)
      (mergeIssues (mergeIssues S b.1 b.2) a.1 a.2) := by
  refine ⟨fun ℓ' => ?_, fun ℓ' => ?_, fun ℓ' => ?_⟩
  · by_cases wa : ∃ ℓ ys, stripPre a.2 ℓ' = some ℓ ∧ entryAt a.1.errors ℓ = some ys
    · obtain ⟨ℓ, ys, hs, he⟩ := wa
      obtain rfl : ℓ' = a.2 ++ ℓ := (stripPre_eq_some _ _ _).mp hs
      have wb : ¬∃ ℓ₀ zs, stripPre b.2 (a.2 ++ ℓ) = some ℓ₀ ∧
          entryAt b.1.errors ℓ₀ = some zs := by
        rintro ⟨ℓ₀, zs, hs₀, he₀⟩
        refine hd _ ⟨touched_of_errors a _ _ he, ?_⟩
        rw [(stripPre_eq_some _ _ _).mp hs₀]
        exact touched_of_errors b _ _ he₀
      rw [mergeIssues_errors_left _ _ _ _ (noWrite_of_not_exists _ _ _ wb),
        mergeIssues_errors_found _ _ _ _ _ hA.1 he,
        mergeIssues_errors_found _ _ _ _ _ hA.1 he]
      simp only [listAt, mergeIssues_errors_left _ _ _ _
        (noWrite_of_not_exists _ _ _ wb)]
    · by_cases wb : ∃ ℓ zs, stripPre b.2 ℓ' = some ℓ ∧ entryAt b.1.errors ℓ = some zs
      · obtain ⟨ℓ, zs, hs, he⟩ := wb
        obtain rfl : ℓ' = b.2 ++ ℓ := (stripPre_eq_some _ _ _).mp hs
        rw [mergeIssues_errors_found _ _ _ _ _ hB.1 he,
          mergeIssues_errors_left _ _ _ _ (noWrite_of_not_exists _ _ _ wa),
          mergeIssues_errors_found _ _ _ _ _ hB.1 he]
        simp only [listAt, mergeIssues_errors_left _ _ _ _
          (noWrite_of_not_exists _ _ _ wa)]
      · rw [mergeIssues_errors_left _ _ _ _ (noWrite_of_not_exists _ _ _ wb),
          mergeIssues_errors_left _ _ _ _ (noWrite_of_not_exists _ _ _ wa),
          mergeIssues_errors_left _ _ _ _ (noWrite_of_not_exists _ _ _ wa),
          mergeIssues_errors_left _ _ _ _ (noWrite_of_not_exists _ _ _ wb)]
  · by_cases wa : ∃ ℓ ys, stripPre a.2 ℓ' = some ℓ ∧ entryAt a.1.warnings ℓ = some ys
    · obtain ⟨ℓ, ys, hs, he⟩ := wa
      obtain rfl : ℓ' = a.2 ++ ℓ := (stripPre_eq_some _ _ _).mp hs
      have wb : ¬∃ ℓ₀ zs, stripPre b.2 (a.2 ++ ℓ) = some ℓ₀ ∧
          entryAt b.1.warnings ℓ₀ = some zs := by
        rintro ⟨ℓ₀, zs, hs₀, he₀⟩
        refine hd _ ⟨touched_of_warnings a _ _ he, ?_⟩
        rw [(stripPre_eq_some _ _ _).mp hs₀]
        exact touched_of_warnings b _ _ he₀
      rw [mergeIssues_warnings_left _ _ _ _ (noWrite_of_not_exists _ _ _ wb),
        mergeIssues_warnings_found _ _ _ _ _ hA.2.1 he,
        mergeIssues_warnings_found _ _ _ _ _ hA.2.1 he]
      simp only [listAt, mergeIssues_warnings_left _ _ _ _
        (noWrite_of_not_exists _ _ _ wb)]
    · by_cases wb : ∃ ℓ zs, stripPre b.2 ℓ' = some ℓ ∧
          entryAt b.1.warnings ℓ = some zs
      · obtain ⟨ℓ, zs, hs, he⟩ := wb
        obtain rfl : ℓ' = b.2 ++ ℓ := (stripPre_eq_some _ _ _).mp hs
        rw [mergeIssues_warnings_found _ _ _ _ _ hB.2.1 he,
          mergeIssues_warnings_left _ _ _ _ (noWrite_of_not_exists _ _ _ wa),
          mergeIssues_warnings_found _ _ _ _ _ hB.2.1 he]
        simp only [listAt, mergeIssues_warnings_left _ _ _ _
          (noWrite_of_not_exists _ _ _ wa)]
      · rw [mergeIssues_warnings_left _ _ _ _ (noWrite_of_not_exists _ _ _ wb),
          mergeIssues_warnings_left _ _ _ _ (noWrite_of_not_exists _ _ _ wa),
          mergeIssues_warnings_left _ _ _ _ (noWrite_of_not_exists _ _ _ wa),
          mergeIssues_warnings_left _ _ _ _ (noWrite_of_not_exists _ _ _ wb)]
  · by_cases wa : ∃ ℓ ys, stripPre a.2 ℓ' = some ℓ ∧ entryAt a.1.errors ℓ = some ys
    · obtain ⟨ℓ, ys, hs, he⟩ := wa
      obtain rfl : ℓ' = a.2 ++ ℓ := (stripPre_eq_some _ _ _).mp hs
      have wb : ¬∃ ℓ₀ zs, stripPre b.2 (a.2 ++ ℓ) = some ℓ₀ ∧
          entryAt b.1.errors ℓ₀ = some zs := by
        rintro ⟨ℓ₀, zs, hs₀, he₀⟩
        refine hd _ ⟨touched_of_errors a _ _ he, ?_⟩
        rw [(stripPre_eq_some _ _ _).mp hs₀]
        exact touched_of_errors b _ _ he₀
      rw [mergeIssues_stop_left _ _ _ _ (noWrite_of_not_exists _ _ _ wb),
        mergeIssues_stop_found _ _ _ _ _ hA.1 he,
        mergeIssues_stop_found _ _ _ _ _ hA.1 he]
      simp only [listAt, mergeIssues_stop_left _ _ _ _
        (noWrite_of_not_exists _ _ _ wb)]
    · by_cases wb : ∃ ℓ zs, stripPre b.2 ℓ' = some ℓ ∧ entryAt b.1.errors ℓ = some zs
      · obtain ⟨ℓ, zs, hs, he⟩ := wb
        obtain rfl : ℓ' = b.2 ++ ℓ := (stripPre_eq_some _ _ _).mp hs
        rw [mergeIssues_stop_found _ _ _ _ _ hB.1 he,
          mergeIssues_stop_left _ _ _ _ (noWrite_of_not_exists _ _ _ wa),
          mergeIssues_stop_found _ _ _ _ _ hB.1 he]
        simp only [listAt, mergeIssues_stop_left _ _ _ _
          (noWrite_of_not_exists _ _ _ wa)]
      · rw [mergeIssues_stop_left _ _ _ _ (noWrite_of_not_exists _ _ _ wb),
          mergeIssues_stop_left _ _ _ _ (noWrite_of_not_exists _ _ _ wa),
          mergeIssues_stop_left _ _ _ _ (noWrite_of_not_exists _ _ _ wa),
          mergeIssues_stop_left _ _ _ _ (noWrite_of_not_exists _ _ _ wb)]

theorem touchDisjoint_symm : Symmetric TouchDisjoint := by
  intro a b h ℓ hc
  exact h ℓ ⟨hc.2, hc.1⟩

theorem foldMerges_congr (l : List (ValidationIssues × Location))
    (S T : ValidationIssues) (hw : ∀ t ∈ l, WFKeys t.1)
    (h : IssuesEquiv S T) : IssuesEquiv (foldMerges S l) (foldMerges T l) := by
  induction l generalizing S T with
  | nil => exact h
  | cons t ts ih =>
    refine ih _ _ (fun u hu => hw u (List.mem_cons_of_mem _ hu)) ?_
    have ht := hw t (List.mem_cons_self _ _)
    exact mergeIssues_congr _ _ _ _ ⟨ht.1, ht.2.1⟩ h

theorem foldMerges_perm (l₁ l₂ : List (ValidationIssues × Location))
    (hp : l₁.Perm l₂) :
    ∀ S : ValidationIssues, (∀ t ∈ l₁, WFKeys t.1) →
      l₁.Pairwise TouchDisjoint →
      IssuesEquiv (foldMerges S l₁) (foldMerges S l₂) := by
  induction hp with
  | nil =>
    intro S _ _
    exact issuesEquiv_refl _
  | cons x hp ih =>
    intro S hw hd
    exact ih _ (fun u hu => hw u (List.mem_cons_of_mem _ hu))
      (List.pairwise_cons.mp hd).2
  | swap x y t =>
    intro S hw hd
    have hx : WFKeys x.1 := hw x (List.mem_cons_of_mem _ (List.mem_cons_self _ _))
    have hy : WFKeys y.1 := hw y (List.mem_cons_self _ _)
    have hyx : TouchDisjoint y x := (List.pairwise_cons.mp hd).1 x
      (List.mem_cons_self _ _)
    show IssuesEquiv
      (foldMerges (mergeIssues (mergeIssues S y.1 y.2) x.1 x.2) t)
      (foldMerges (mergeIssues (mergeIssues S x.1 x.2) y.1 y.2) t)
    refine foldMerges_congr _ _ _
      (fun u hu => hw u (List.mem_cons_of_mem _ (List.mem_cons_of_mem _ hu))) ?_
    exact mergeIssues_swap S y x hy hx hyx
  | trans h₁ h₂ ih₁ ih₂ =>
    intro S hw hd
    refine issuesEquiv_trans (ih₁ S hw hd) ?_
    exact ih₂ S (fun u hu => hw u (h₁.mem_iff.mpr hu))
      ((h₁.pairwise_iff (fun ha => touchDisjoint_symm ha)).mp hd)

/-! ### `can_proceed` / `has_errors` bridges -/

theorem canProceed_single_false (I : ValidationIssues) (L : Location) :
    canProceed I [L] = false ↔
      ∃ i, i ≤ L.length ∧ keyMem I.stopProceeding (L.take i) = true := by
  rw [← Bool.not_eq_true]
  simp only [canProceed, List.isEmpty_cons, Bool.false_eq_true, if_false,
    List.all_cons, List.all_nil, Bool.and_true]
  simp [List.all_eq_true, Nat.lt_succ_iff]

theorem canProceed_root_false (I : ValidationIssues) :
    canProceed I [] = false ↔ keyMem I.stopProceeding [] = true := by
  rw [← Bool.not_eq_true]
  simp only [canProceed, List.isEmpty_nil, if_true, List.all_cons, List.all_nil,
    Bool.and_true]
  simp [List.all_eq_true, Nat.lt_succ_iff]

theorem hasErrors_root (I : ValidationIssues) :
    hasErrors I [] = true ↔ I.errors ≠ [] := by
  simp only [hasErrors, List.isEmpty_nil, if_true, List.any_cons, List.any_nil,
    Bool.or_false]
  rw [List.any_eq_true]
  constructor
  · rintro ⟨x, hx, _⟩ hnil
    rw [hnil] at hx
    cases hx
  · intro h
    cases he : I.errors with
    | nil => exact absurd he h
    | cons x rest =>
      exact ⟨x, List.mem_cons_self _ _, by simp⟩

/-! ### The reachable-tree invariant: blocking codes come from errors -/

theorem reachable_inv (I : ValidationIssues) (h : ReachableIssues I) :
    ∀ ℓ cs, entryAt I.stopProceeding ℓ = some cs →
      ∃ es, entryAt I.errors ℓ = some es ∧ ∀ c ∈ cs, ∃ e ∈ es, e.code = c := by
  induction h with
  | empty =>
    intro ℓ cs hst
    cases hst
  | addErr I e proceed ℓ _ ih =>
    intro ℓ₀ cs hst
    have herr : entryAt (addError I e proceed ℓ).errors ℓ₀ =
        if ℓ₀ = ℓ then some (listAt I.errors ℓ ++ [e]) else entryAt I.errors ℓ₀ :=
      entryAt_dAppend _ _ _ _
    by_cases hp : proceed
    · have hst' : entryAt I.stopProceeding ℓ₀ = some cs := by
        simpa [addError, hp] using hst
      obtain ⟨es, hes, hcov⟩ := ih ℓ₀ cs hst'
      by_cases hl : ℓ₀ = ℓ
      · subst hl
        refine ⟨listAt I.errors ℓ₀ ++ [e], by rw [herr, if_pos rfl], ?_⟩
        intro c hc
        obtain ⟨e₀, he₀, hcode⟩ := hcov c hc
        refine ⟨e₀, List.mem_append_left _ ?_, hcode⟩
        rw [listAt, hes]
        exact he₀
      · exact ⟨es, by rw [herr, if_neg hl]; exact hes, hcov⟩
    · have hst' : entryAt (dUnion I.stopProceeding ℓ [e.code]) ℓ₀ = some cs := by
        simpa [addError, hp] using hst
      rw [entryAt_dUnion] at hst'
      by_cases hl : ℓ₀ = ℓ
      · subst hl
        rw [if_pos rfl] at hst'
        injection hst' with hst'
        refine ⟨listAt I.errors ℓ₀ ++ [e], by rw [herr, if_pos rfl], ?_⟩
        intro c hc
        rw [← hst'] at hc
        rcases (mem_setUnion _ _ _).mp hc with hc | hc
        · cases hs0 : entryAt I.stopProceeding ℓ₀ with
          | none =>
            rw [listAt, hs0] at hc
            cases hc
          | some cs₀ =>
            rw [listAt, hs0] at hc
            obtain ⟨es, hes, hcov⟩ := ih ℓ₀ cs₀ hs0
            obtain ⟨e₀, he₀, hcode⟩ := hcov c hc
            refine ⟨e₀, List.mem_append_left _ ?_, hcode⟩
            rw [listAt, hes]
            exact he₀
        · have hc' : c = e.code := List.mem_singleton.mp hc
          exact ⟨e, List.mem_append_right _ (List.mem_cons_self _ _), hc'.symm⟩
      · rw [if_neg hl] at hst'
        obtain ⟨es, hes, hcov⟩ := ih ℓ₀ cs hst'
        exact ⟨es, by rw [herr, if_neg hl]; exact hes, hcov⟩
  | addWarn I w ℓ _ ih =>
    intro ℓ₀ cs hst
    exact ih ℓ₀ cs hst
  | mrg I J p hI hJ ihI ihJ =>
    intro ℓ₀ cs hst
    have hJwf := wfKeys_reachable J hJ
    by_cases wj : ∃ ℓ ys, stripPre p ℓ₀ = some ℓ ∧ entryAt J.errors ℓ = some ys
    · obtain ⟨ℓ, ys, hs, hje⟩ := wj
      obtain rfl : ℓ₀ = p ++ ℓ := (stripPre_eq_some _ _ _).mp hs
      rw [mergeIssues_stop_found _ _ _ _ _ hJwf.1 hje] at hst
      injection hst with hst
      refine ⟨listAt I.errors (p ++ ℓ) ++ ys,
        mergeIssues_errors_found _ _ _ _ _ hJwf.1 hje, ?_⟩
      intro c hc
      rw [← hst] at hc
      rcases (mem_setUnion _ _ _).mp hc with hc | hc
      · cases hs0 : entryAt I.stopProceeding (p ++ ℓ) with
        | none =>
          rw [listAt, hs0] at hc
          cases hc
        | some cs₀ =>
          rw [listAt, hs0] at hc
          obtain ⟨es, hes, hcov⟩ := ihI _ cs₀ hs0
          obtain ⟨e₀, he₀, hcode⟩ := hcov c hc
          refine ⟨e₀, List.mem_append_left _ ?_, hcode⟩
          rw [listAt, hes]
          exact he₀
      · cases hs1 : entryAt J.stopProceeding ℓ with
        | none =>
          rw [listAt, hs1] at hc
          cases hc
        | some cs₁ =>
          rw [listAt, hs1] at hc
          obtain ⟨es₁, hes₁, hcov₁⟩ := ihJ _ cs₁ hs1
          obtain ⟨e₀, he₀, hcode⟩ := hcov₁ c hc
          rw [hje] at hes₁
          injection hes₁ with hes₁
          refine ⟨e₀, List.mem_append_right _ ?_, hcode⟩
          rw [hes₁]
          exact he₀
    · have hnone := noWrite_of_not_exists _ _ _ wj
      rw [mergeIssues_stop_left _ _ _ _ hnone] at hst
      obtain ⟨es, hes, hcov⟩ := ihI ℓ₀ cs hst
      refine ⟨es, ?_, hcov⟩
      rw [mergeIssues_errors_left _ _ _ _ hnone]
      exact hes

/-! ### Blocking keys are created by `merge` at every merged error location -/

theorem keyMem_dUnion_self (m : List (Location × List Nat)) (ℓ : Location)
    (cs : List Nat) : keyMem (dUnion m ℓ cs) ℓ = true := by
  rw [keyMem, entryAt_dUnion, if_pos rfl]
  rfl

theorem keyMem_dUnion_mono (m : List (Location × List Nat)) (ℓ ℓ' : Location)
    (cs : List Nat) (h : keyMem m ℓ' = true) :
    keyMem (dUnion m ℓ cs) ℓ' = true := by
  rw [keyMem, entryAt_dUnion]
  by_cases hl : ℓ' = ℓ
  · rw [if_pos hl]
    rfl
  · rw [if_neg hl]
    exact h

theorem mergeErrList_stop_mono (s : List (Location × List Nat)) (p : Location)
    (es : List (Location × List VErr)) (I : ValidationIssues) (ℓ' : Location)
    (h : keyMem I.stopProceeding ℓ' = true) :
    keyMem (mergeErrList s p I es).stopProceeding ℓ' = true := by
  induction es generalizing I with
  | nil => exact h
  | cons e rest ih => exact ih _ (keyMem_dUnion_mono _ _ _ _ h)

theorem mergeErrList_stop_created (s : List (Location × List Nat))
    (p : Location) (es : List (Location × List VErr)) (I : ValidationIssues)
    (ℓ₀ : Location) (h : ℓ₀ ∈ es.map Prod.fst) :
    keyMem (mergeErrList s p I es).stopProceeding (p ++ ℓ₀) = true := by
  induction es generalizing I with
  | nil => cases h
  | cons e rest ih =>
    rw [List.map_cons, List.mem_cons] at h
    by_cases he : ℓ₀ = e.1
    · subst he
      simp only [mergeErrList]
      exact mergeErrList_stop_mono _ _ _ _ _ (keyMem_dUnion_self _ _ _)
    · exact ih _ (h.resolve_left he)

theorem mergeIssues_stop_keyMem (S o : ValidationIssues) (p ℓ : Location)
    (es : List VErr) (h : entryAt o.errors ℓ = some es) :
    keyMem (mergeIssues S o p).stopProceeding (p ++ ℓ) = true := by
  rw [keyMem, mergeIssues, mergeWarnList_stopProceeding, ← keyMem]
  exact mergeErrList_stop_created _ _ _ _ _ (mem_of_entryAt_some _ _ _ h)

end Issues

end Scimple

namespace Scimple

open Data Issues

/-! ### Container lemmas -/

namespace Data

theorem ciEq_of_lc {a b : String} (h : lc a = lc b) : ciEq a b = true := by
  simp [ciEq, h]

theorem findCI_congr (d : SCIMData) (k k' : String) (h : lc k' = lc k) :
    findCI d k' = findCI d k := by
  unfold findCI ciEq
  simp only [h]

theorem findCI_append (d₁ d₂ : SCIMData) (k : String) :
    findCI (d₁ ++ d₂) k = (findCI d₁ k).or (findCI d₂ k) := by
  induction d₁ with
  | nil => rfl
  | cons p rest ih =>
    rw [List.cons_append]
    unfold findCI at ih ⊢
    by_cases hp : ciEq p.1 k = true
    · rw [@List.find?_cons_of_pos _ (fun q => ciEq q.1 k) p _ hp,
        @List.find?_cons_of_pos _ (fun q => ciEq q.1 k) p _ hp]
      rfl
    · rw [@List.find?_cons_of_neg _ (fun q => ciEq q.1 k) p _ hp,
        @List.find?_cons_of_neg _ (fun q => ciEq q.1 k) p _ hp]
      exact ih

theorem findCI_filter_not (d : SCIMData) (k k' : String) (h : lc k' = lc k) :
    findCI (d.filter (fun p => !ciEq p.1 k)) k' = none := by
  unfold findCI
  rw [List.find?_eq_none]
  intro x hx hc
  obtain ⟨_, hxc⟩ := List.mem_filter.mp hx
  rw [Bool.not_eq_true'] at hxc
  rw [show ciEq x.1 k' = ciEq x.1 k from by unfold ciEq; rw [h], hxc] at hc
  cases hc

theorem getPlain_setPlain_ci (es : SCIMData) (sub S : String) (v : Value)
    (h : lc S = lc sub) :
    getPlain (setPlain es sub v) S Value.vMissing = v := by
  unfold getPlain setPlain
  rw [findCI_append, findCI_filter_not _ _ _ h,
    show findCI [(sub, v)] S = some (sub, v) from by
      unfold findCI
      exact @List.find?_cons_of_pos _ (fun q => ciEq q.1 S) (sub, v) _
        (ciEq_of_lc h.symm)]
  rfl

theorem findCI_map_update (d : SCIMData) (A k : String)
    (es : List (String × Value)) (w : Value)
    (hf : findCI d A = some (k, Value.vData es)) :
    findCI (d.map (fun p => if p.1 = k then (p.1, w) else p)) A =
      some (k, w) := by
  induction d with
  | nil => cases hf
  | cons p rest ih =>
    unfold findCI at hf ⊢
    rw [List.map_cons]
    by_cases hc : ciEq p.1 A = true
    · rw [@List.find?_cons_of_pos _ (fun q => ciEq q.1 A) p _ hc] at hf
      injection hf with hf
      have hk : ciEq k A = true := by
        rw [hf] at hc
        exact hc
      rw [hf, if_pos rfl]
      exact @List.find?_cons_of_pos _ (fun q => ciEq q.1 A) (k, w) _ hk
    · rw [@List.find?_cons_of_neg _ (fun q => ciEq q.1 A) p _ hc] at hf
      have hpk : p.1 ≠ k := by
        intro he
        have hk : ciEq k A = true := by
          have := List.find?_some hf
          simpa using this
        rw [he] at hc
        exact hc hk
      rw [if_neg hpk,
        @List.find?_cons_of_neg _ (fun q => ciEq q.1 A) (p.1, p.2) _ hc]
      exact ih hf

end Data

/-! ## Claim theorems -/

/-- C2 counterexample: the claim "can_proceed(L) is false iff some prefix of
L carries a stop-flagged (proceed=false) error code" fails on the tree
obtained by merging a *proceedable* error recorded at `("a",)` into a
fresh tree: every blocking-code set is empty (no stop-flagged code exists
anywhere), yet `can_proceed(("a","b"))` is false, because the merge's
defaultdict access created an (empty) blocking entry at `("a",)`. -/
theorem can_proceed_claim_false :
    canProceed
        (mergeIssues emptyIssues
          (addError emptyIssues ⟨2, "boolean"⟩ true [LocSeg.s "a"]) [])
        [[LocSeg.s "a", LocSeg.s "b"]] = false ∧
      (mergeIssues emptyIssues
          (addError emptyIssues ⟨2, "boolean"⟩ true [LocSeg.s "a"]) []
        ).stopProceeding.all (fun q => q.2.isEmpty) = true ∧
      canProceed (addError emptyIssues ⟨2, "boolean"⟩ true [LocSeg.s "a"])
        [[LocSeg.s "a", LocSeg.s "b"]] = true :=
  ⟨rfl, rfl, rfl⟩

/-- C2 (amended): `can_proceed(L)` returns false iff some prefix of `L`
(the empty root prefix and `L` itself included) is a key of the blocking
table.  A prefix becomes such a key either through `add_error` with
`proceed=false` — in particular a non-proceedable error recorded at a
location blocks every location extending it, even with nothing recorded
there directly — or through `merge`, which creates a (possibly empty)
blocking entry at every location at which the merged tree records
errors. -/
theorem can_proceed_blocking_keys (I S o : ValidationIssues)
    (L ℓ rest p : Location) (e : VErr) (es : List VErr)
    (ho : entryAt o.errors ℓ = some es) :
    (canProceed I [L] = false ↔
      ∃ i, i ≤ L.length ∧ keyMem I.stopProceeding (L.take i) = true) ∧
      canProceed (addError I e false ℓ) [ℓ ++ rest] = false ∧
      canProceed (mergeIssues S o p) [(p ++ ℓ) ++ rest] = false := by
  refine ⟨canProceed_single_false I L, ?_, ?_⟩
  · rw [canProceed_single_false]
    refine ⟨ℓ.length, ?_, ?_⟩
    · simp only [List.length_append]
      omega
    · rw [List.take_left]
      have : keyMem (addError I e false ℓ).stopProceeding ℓ = true := by
        show keyMem (dUnion I.stopProceeding ℓ [e.code]) ℓ = true
        exact keyMem_dUnion_self _ _ _
      exact this
  · rw [canProceed_single_false]
    refine ⟨(p ++ ℓ).length, ?_, ?_⟩
    · simp only [List.length_append]
      omega
    · rw [List.take_left]
      exact mergeIssues_stop_keyMem S o p ℓ es ho

/-- C2 witness: the amended statement applied to the concrete
single-error tree (non-proceedable bad-type error at `("a",)` blocking
`("a","b")`). -/
theorem can_proceed_blocking_keys_witness :
    entryAt (addError emptyIssues ⟨2, "boolean"⟩ false [LocSeg.s "a"]).errors
        [LocSeg.s "a"] = some [⟨2, "boolean"⟩] ∧
      canProceed
        (addError emptyIssues ⟨2, "boolean"⟩ false [LocSeg.s "a"])
        [[LocSeg.s "a", LocSeg.s "b"]] = false :=
  ⟨rfl,
    (can_proceed_blocking_keys emptyIssues emptyIssues
        (addError emptyIssues ⟨2, "boolean"⟩ false [LocSeg.s "a"])
        [] [LocSeg.s "a"] [LocSeg.s "b"] [] ⟨2, "boolean"⟩ [⟨2, "boolean"⟩]
        rfl).2.1⟩

/-- C9: in every issue tree built from empty trees by `add_error`,
`add_warning` and `merge`, every blocking code at a location is the code
of some error recorded at that same location; consequently, when the root
`can_proceed()` is false, `has_errors()` is true. -/
theorem reachable_stop_implies_error (I : ValidationIssues)
    (h : ReachableIssues I) :
    (∀ ℓ c, c ∈ listAt I.stopProceeding ℓ →
      ∃ e ∈ listAt I.errors ℓ, e.code = c) ∧
      (canProceed I [] = false → hasErrors I [] = true) := by
  constructor
  · intro ℓ c hc
    cases hs : entryAt I.stopProceeding ℓ with
    | none =>
      rw [listAt, hs] at hc
      cases hc
    | some cs =>
      rw [listAt, hs] at hc
      obtain ⟨es, hes, hcov⟩ := reachable_inv I h ℓ cs hs
      obtain ⟨e, he, hcode⟩ := hcov c hc
      refine ⟨e, ?_, hcode⟩
      rw [listAt, hes]
      exact he
  · intro hcp
    rw [canProceed_root_false, keyMem] at hcp
    rw [hasErrors_root]
    cases hs : entryAt I.stopProceeding [] with
    | none =>
      rw [hs] at hcp
      cases hcp
    | some cs =>
      obtain ⟨es, hes, _⟩ := reachable_inv I h [] cs hs
      intro hnil
      rw [hnil] at hes
      cases hes

/-- C9 witness: the invariant applied to the concrete reachable tree
carrying one non-proceedable error at the root. -/
theorem reachable_stop_implies_error_witness :
    ReachableIssues (addError emptyIssues ⟨2, "boolean"⟩ false []) ∧
      ((∀ ℓ c,
          c ∈ listAt (addError emptyIssues ⟨2, "boolean"⟩ false
            []).stopProceeding ℓ →
          ∃ e ∈ listAt (addError emptyIssues ⟨2, "boolean"⟩ false []).errors ℓ,
            e.code = c) ∧
        (canProceed (addError emptyIssues ⟨2, "boolean"⟩ false []) [] = false →
          hasErrors (addError emptyIssues ⟨2, "boolean"⟩ false []) [] = true)) :=
  ⟨ReachableIssues.addErr _ _ _ _ ReachableIssues.empty,
    reachable_stop_implies_error _
      (ReachableIssues.addErr _ _ _ _ ReachableIssues.empty)⟩

/-- C5 counterexample: `merge` does not add every blocking-code entry of
the other tree.  A tree carrying the blocking code 2 at `("a",)` but no
error entry there (such trees are produced by
`ValidationIssues.get(error_codes=[])`, which keeps blocking codes while
filtering out all errors) loses that blocking entry entirely when merged
into a fresh tree, because `merge` only visits blocking codes at the
other tree's *error* locations. -/
theorem merge_claim_false :
    entryAt
        (ValidationIssues.mk [] [] [([LocSeg.s "a"], [2])]).stopProceeding
        [LocSeg.s "a"] = some [2] ∧
      (mergeIssues emptyIssues
          (ValidationIssues.mk [] [] [([LocSeg.s "a"], [2])]) []
        ).stopProceeding = [] :=
  ⟨rfl, rfl⟩

/-- C5 (amended): `merge(other, prefix)` appends every error and warning
entry of `other` at its prefix-prepended location, and transfers `other`'s
blocking codes at a location exactly when `other` also records errors
there (blocking codes at error-free locations are dropped; at error
locations the blocking set becomes the union).  Moreover, for any list of
issue trees with pairwise disjoint prefixed recorded locations and
dictionary keys unique per tree, merging them into an empty tree in any
order yields the same location-to-errors, location-to-warnings and
location-to-blocking-codes content. -/
theorem merge_transfer_and_permutation :
    (∀ (S o : ValidationIssues) (p ℓ : Location) (ys : List VErr),
        (o.errors.map Prod.fst).Nodup → entryAt o.errors ℓ = some ys →
        entryAt (mergeIssues S o p).errors (p ++ ℓ) =
            some (listAt S.errors (p ++ ℓ) ++ ys) ∧
          ∀ c, c ∈ listAt (mergeIssues S o p).stopProceeding (p ++ ℓ) ↔
            c ∈ listAt S.stopProceeding (p ++ ℓ) ∨
              c ∈ listAt o.stopProceeding ℓ) ∧
      (∀ (S o : ValidationIssues) (p ℓ : Location) (ys : List Nat),
        (o.warnings.map Prod.fst).Nodup → entryAt o.warnings ℓ = some ys →
        entryAt (mergeIssues S o p).warnings (p ++ ℓ) =
          some (listAt S.warnings (p ++ ℓ) ++ ys)) ∧
      (∀ (S o : ValidationIssues) (p ℓ : Location),
        entryAt o.errors ℓ = none →
        entryAt (mergeIssues S o p).stopProceeding (p ++ ℓ) =
          entryAt S.stopProceeding (p ++ ℓ)) ∧
      (∀ (l₁ l₂ : List (ValidationIssues × Location)), l₁.Perm l₂ →
        (∀ t ∈ l₁, WFKeys t.1) → l₁.Pairwise TouchDisjoint →
        IssuesEquiv (foldMerges emptyIssues l₁) (foldMerges emptyIssues l₂)) := by
  refine ⟨?_, ?_, ?_, ?_⟩
  · intro S o p ℓ ys hnd h
    refine ⟨mergeIssues_errors_found _ _ _ _ _ hnd h, ?_⟩
    intro c
    rw [listAt, mergeIssues_stop_found _ _ _ _ _ hnd h]
    show c ∈ setUnion _ _ ↔ _
    rw [mem_setUnion]
  · intro S o p ℓ ys hnd h
    exact mergeIssues_warnings_found _ _ _ _ _ hnd h
  · intro S o p ℓ h
    exact mergeIssues_stop_nokey _ _ _ _ h
  · intro l₁ l₂ hp hw hd
    exact foldMerges_perm _ _ hp emptyIssues hw hd

/-- C5 witness: the amended statement applied to a one-error tree merged
under the prefix `("x",)`. -/
theorem merge_transfer_and_permutation_witness :
    ((addError emptyIssues ⟨2, ""⟩ false []).errors.map Prod.fst).Nodup ∧
      entryAt (addError emptyIssues ⟨2, ""⟩ false []).errors [] =
        some [⟨2, ""⟩] ∧
      entryAt
        (mergeIssues emptyIssues (addError emptyIssues ⟨2, ""⟩ false [])
          [LocSeg.s "x"]).errors [LocSeg.s "x"] = some [⟨2, ""⟩] :=
  ⟨by decide, rfl, by
    have h := (merge_transfer_and_permutation.1 emptyIssues
      (addError emptyIssues ⟨2, ""⟩ false []) [LocSeg.s "x"] [] [⟨2, ""⟩]
      (by decide) rfl).1
    simpa using h⟩

/-- C4 (spec-modelled): registering an already-registered schema URI —
case-insensitively — fails with the duplicate-registration error and
returns the registry unchanged, so the existing is-extension entry for
that URI is still in place. -/
theorem register_schema_duplicate (reg : SchemaRegistry) (uri uri' : String)
    (e b : Bool) (h : lookupSchema reg uri = some b) (hci : lc uri' = lc uri) :
    registerSchema reg uri' e = (some RegErr.duplicateSchema, reg) ∧
      lookupSchema reg uri' = some b := by
  have hq : lookupSchema reg uri' = lookupSchema reg uri := by
    simp only [lookupSchema, ciEq, hci]
  constructor
  · rw [registerSchema, hq, h]
    rfl
  · rw [hq, h]

/-- C4 witness: re-registering `urn:example:A` (queried in a different
casing) against a registry already holding it. -/
theorem register_schema_duplicate_witness :
    lookupSchema [("urn:example:A", false)] "urn:example:A" = some false ∧
      lc "URN:EXAMPLE:a" = lc "urn:example:A" ∧
      registerSchema [("urn:example:A", false)] "URN:EXAMPLE:a" true =
        (some RegErr.duplicateSchema, [("urn:example:A", false)]) :=
  ⟨rfl, rfl,
    (register_schema_duplicate [("urn:example:A", false)] "urn:example:A"
      "URN:EXAMPLE:a" true false rfl rfl).1⟩

/-- C10: Python `==` between a schema-bound and an unbound attribute path
ignores the schema — it holds in both directions whenever the attribute
and sub-attribute names match case-insensitively — even though the two
classes hash different component tuples; and two bound reps compare equal
exactly when their names match case-insensitively and their schemas do
too (the extension flag is never compared). -/
theorem attrrep_eq_ignores_schema (sc sc₂ a a' : String) (s s' : Option String)
    (ext ext₂ : Bool) (hattr : lc a = lc a') (hsub : subEq s s' = true) :
    repEq (Rep.plain a s) (Rep.bounded sc a' s' ext) = true ∧
      repEq (Rep.bounded sc a' s' ext) (Rep.plain a s) = true ∧
      (repEq (Rep.bounded sc a s ext) (Rep.bounded sc₂ a' s' ext₂) = true ↔
        (namesEq a s a' s' = true ∧ ciEq sc sc₂ = true)) ∧
      (hashKey (Rep.plain a s)).length ≠
        (hashKey (Rep.bounded sc a' s' ext)).length := by
  have hci : ciEq a a' = true := by
    simp [ciEq, hattr]
  have hci' : ciEq a' a = true := by
    simp [ciEq, hattr]
  have hsub' : subEq s' s = true := by
    cases s with
    | none =>
      cases s' with
      | none => rfl
      | some y => cases hsub
    | some x =>
      cases s' with
      | none => cases hsub
      | some y =>
        have : lc x = lc y := by
          have := hsub
          simp only [subEq, ciEq, beq_iff_eq] at this
          exact this
        simp [subEq, ciEq, this]
  refine ⟨?_, ?_, ?_, ?_⟩
  · simp [repEq, namesEq, hci, hsub]
  · simp [repEq, namesEq, hci', hsub']
  · simp [repEq, Bool.and_eq_true]
  · cases s <;> cases s' <;> simp [hashKey]

/-- C1 counterexample: the claim "set fails iff the existing value under
the parent attribute is neither a nested container nor a list" is false:
with `{"a": [1]}` the value stored under `a` *is* a list, yet
`set("a.b", 42)` raises the addressing `KeyError`
(`_is_child_value_compatible` rejects a non-list child for a list
parent). -/
theorem scimdata_set_subattr_claim_false :
    getPlain [("a", Value.vList [Value.vInt 1])] "a" Value.vMissing =
        Value.vList [Value.vInt 1] ∧
      setAttr [("a", Value.vList [Value.vInt 1])] "a" (some "b")
        (Value.vInt 42) = Except.error SetErr.keyError :=
  ⟨rfl, rfl⟩

/-- C1 (amended): `set(attr.subAttr, v)` is case-insensitive and
auto-creates an intermediate nested container when no entry for `attr`
exists (a subsequent `get`, under any casing, returns `v`); it succeeds
whenever the existing value under `attr` is a nested container (again
`get` then returns `v`); and it fails if and only if the existing value
under `attr` is *not* a nested container: with the addressing error
(`IncompatibleTarget`/`KeyError`) when that value is neither a container
nor a list, or when it is a list and `v` is not a list; when both are
lists the write fails anyway, on the `.set` call that lists do not
define. -/
theorem scimdata_set_subattr_amended (d : SCIMData) (attr sub : String)
    (v : Value) :
    (findCI d attr = none →
      setAttr d attr (some sub) v =
          Except.ok (d ++ [(attr, Value.vData [(sub, v)])]) ∧
        ∀ A S, lc A = lc attr → lc S = lc sub →
          getAttr (d ++ [(attr, Value.vData [(sub, v)])]) A (some S)
            Value.vMissing = v) ∧
      (∀ k es, findCI d attr = some (k, Value.vData es) →
        setAttr d attr (some sub) v =
            Except.ok (d.map (fun p =>
              if p.1 = k then (p.1, Value.vData (setPlain es sub v)) else p)) ∧
          ∀ A S, lc A = lc attr → lc S = lc sub →
            getAttr (d.map (fun p =>
                if p.1 = k then (p.1, Value.vData (setPlain es sub v)) else p))
              A (some S) Value.vMissing = v) ∧
      ((∃ err, setAttr d attr (some sub) v = Except.error err) ↔
        ∃ k w, findCI d attr = some (k, w) ∧ Value.isData w = false) ∧
      (∀ k w, findCI d attr = some (k, w) → Value.isData w = false →
        setAttr d attr (some sub) v =
          Except.error (if Value.isList w && Value.isList v
            then SetErr.attrError else SetErr.keyError)) := by
  refine ⟨?_, ?_, ?_, ?_⟩
  · intro h
    constructor
    · show setAttr d attr (some sub) v = _
      unfold setAttr
      rw [h]
      rfl
    · intro A S hA hS
      unfold getAttr
      rw [findCI_congr _ attr A hA, findCI_append, h,
        show findCI [(attr, Value.vData [(sub, v)])] attr =
            some (attr, Value.vData [(sub, v)]) from by
          unfold findCI
          exact @List.find?_cons_of_pos _ (fun q => ciEq q.1 attr)
            (attr, Value.vData [(sub, v)]) [] (ciEq_of_lc rfl)]
      exact getPlain_setPlain_ci [] sub S v hS
  · intro k es hf
    constructor
    · show setAttr d attr (some sub) v = _
      unfold setAttr
      rw [hf]
      rfl
    · intro A S hA hS
      unfold getAttr
      rw [findCI_congr _ attr A hA,
        findCI_map_update d attr k es (Value.vData (setPlain es sub v)) hf]
      exact getPlain_setPlain_ci es sub S v hS
  · constructor
    · rintro ⟨err, he⟩
      unfold setAttr at he
      cases hf : findCI d attr with
      | none =>
        rw [hf] at he
        cases he
      | some q =>
        obtain ⟨k, w⟩ := q
        rw [hf] at he
        refine ⟨k, w, rfl, ?_⟩
        cases w <;> first
          | rfl
          | (exfalso
             revert he
             simp [isChildValueCompatible])
    · rintro ⟨k, w, hf, hw⟩
      unfold setAttr
      rw [hf]
      cases w <;> cases v <;> first
        | exact ⟨SetErr.keyError, rfl⟩
        | exact ⟨SetErr.attrError, rfl⟩
        | (cases hw)
  · intro k w hf hw
    unfold setAttr
    rw [hf]
    cases w <;> cases v <;> first
      | rfl
      | (cases hw)

/-- C1 witness: the amended statement applied to the auto-creation case —
setting `name.givenName` on an empty container and reading it back
through different casings. -/
theorem scimdata_set_subattr_amended_witness :
    findCI [] "name" = none ∧
      setAttr [] "name" (some "givenName") (Value.vStr "Ann") =
        Except.ok [("name", Value.vData [("givenName", Value.vStr "Ann")])] ∧
      getAttr [("name", Value.vData [("givenName", Value.vStr "Ann")])] "NAME"
        (some "GIVENNAME") Value.vMissing = Value.vStr "Ann" :=
  ⟨rfl,
    ((scimdata_set_subattr_amended [] "name" "givenName"
      (Value.vStr "Ann")).1 rfl).1,
    ((scimdata_set_subattr_amended [] "name" "givenName"
      (Value.vStr "Ann")).1 rfl).2 "NAME" "GIVENNAME" rfl rfl⟩

/-- C6: `SCIMData.get` on a sub-attribute path behaves as the
specification describes — the sub-attribute read coincides with the
specification-worded `specGetSub` (container parents are descended into,
list parents are mapped element-wise with the caller's default for
non-container items, anything else yields the caller's default) — and the
top-level attribute is resolved case-insensitively. -/
theorem scimdata_get_subattr_matches_spec (d : SCIMData)
    (attr attr' sub : String) (dflt : Value) (h : lc attr' = lc attr) :
    getAttr d attr (some sub) dflt = specGetSub d attr sub dflt ∧
      getAttr d attr' (some sub) dflt = getAttr d attr (some sub) dflt := by
  constructor
  · show getAttr d attr (some sub) dflt = specGetSub d attr sub dflt
    unfold getAttr specGetSub
    rw [show d.find? (fun p => lc p.1 == lc attr) = findCI d attr from rfl]
    cases hf : findCI d attr with
    | none => rfl
    | some q =>
      obtain ⟨k, v⟩ := q
      cases v <;> rfl
  · unfold getAttr
    rw [show findCI d attr' = findCI d attr from by
      unfold findCI ciEq
      simp only [h]]

/-- C6 witness: reading `name.GIVENNAME` through the casing `NAME` on a
container storing `Name → {givenName → "Ann"}`. -/
theorem scimdata_get_subattr_matches_spec_witness :
    lc "NAME" = lc "name" ∧
      getAttr [("Name", Value.vData [("givenName", Value.vStr "Ann")])] "name"
          (some "GIVENNAME") Value.vMissing =
        specGetSub [("Name", Value.vData [("givenName", Value.vStr "Ann")])]
          "name" "GIVENNAME" Value.vMissing ∧
      getAttr [("Name", Value.vData [("givenName", Value.vStr "Ann")])] "NAME"
          (some "GIVENNAME") Value.vMissing =
        getAttr [("Name", Value.vData [("givenName", Value.vStr "Ann")])]
          "name" (some "GIVENNAME") Value.vMissing :=
  ⟨rfl,
    (scimdata_get_subattr_matches_spec
      [("Name", Value.vData [("givenName", Value.vStr "Ann")])] "name" "NAME"
      "GIVENNAME" Value.vMissing rfl).1,
    (scimdata_get_subattr_matches_spec
      [("Name", Value.vData [("givenName", Value.vStr "Ann")])] "name" "NAME"
      "GIVENNAME" Value.vMissing rfl).2⟩

/-! ### Validation-pipeline helper lemmas -/

theorem canProceed_root_eq (I : ValidationIssues) :
    canProceed I [] = !keyMem I.stopProceeding [] := by
  simp [canProceed]
  rw [show List.range 1 = [0] from rfl]
  simp

theorem canProceed_elemValidateType (t : AttrType) (x : Value) :
    canProceed (elemValidateType t x) [] = typeOk t x := by
  cases h : typeOk t x
  · rw [elemValidateType, if_neg]
    · rfl
    · simp [h]
  · rw [elemValidateType, if_pos]
    · rfl
    · simp [h]

theorem typeStep_out (ec : Value → ValidationIssues) (xs : List Value)
    (I₀ : ValidationIssues) (out₀ : List Value) (i₀ : Nat) :
    (xs.foldl (validateTypeStep ec) (I₀, out₀, i₀)).2.1 =
      out₀ ++ xs.map
        (fun x => if canProceed (ec x) [] then x else Value.vInvalid) := by
  induction xs generalizing I₀ out₀ i₀ with
  | nil => simp
  | cons x rest ih =>
    rw [List.foldl_cons, List.map_cons,
      show validateTypeStep ec (I₀, out₀, i₀) x =
        (mergeIssues I₀ (ec x) [LocSeg.n i₀],
          out₀ ++ [if canProceed (ec x) [] then x else Value.vInvalid],
          i₀ + 1) from rfl,
      ih]
    simp

theorem typefold_root_none (ec : Value → ValidationIssues) (xs : List Value)
    (I₀ : ValidationIssues) (out₀ : List Value) (i₀ : Nat)
    (he : entryAt I₀.errors [] = none)
    (hs : entryAt I₀.stopProceeding [] = none) :
    entryAt ((xs.foldl (validateTypeStep ec) (I₀, out₀, i₀)).1).errors [] =
        none ∧
      entryAt
        ((xs.foldl (validateTypeStep ec) (I₀, out₀, i₀)).1).stopProceeding [] =
        none := by
  induction xs generalizing I₀ out₀ i₀ with
  | nil => exact ⟨he, hs⟩
  | cons x rest ih =>
    rw [List.foldl_cons]
    refine ih _ _ _ ?_ ?_
    · rw [mergeIssues_errors_untouched I₀ (ec x) [LocSeg.n i₀] [] rfl]
      exact he
    · rw [mergeIssues_stop_untouched I₀ (ec x) [LocSeg.n i₀] [] rfl]
      exact hs

theorem elemStep_out (ev : Value → ValidationIssues × Value) (xs : List Value)
    (I₀ : ValidationIssues) (out₀ : List Value) (i₀ : Nat) :
    (xs.foldl (validateElemStep ev) (I₀, out₀, i₀)).2.1 =
      out₀ ++ xs.map (fun x =>
        match x with
        | Value.vInvalid => Value.vInvalid
        | _ => if canProceed (ev x).1 [] then (ev x).2 else Value.vInvalid) := by
  induction xs generalizing I₀ out₀ i₀ with
  | nil => simp
  | cons x rest ih =>
    rw [List.foldl_cons, List.map_cons]
    cases x <;> rw [ih] <;> simp [validateElemStep]

/-- C3: for a multi-valued attribute, `validate_type` on
`[valid, invalid, valid]` records exactly one non-proceedable bad-type
error, at element location 1, overwrites exactly that element with
`Invalid`, and leaves locations 0 and 2 proceedable (reachable by later
value-level checks); a non-list input yields a single non-proceedable
`bad_type('list')` error at the attribute location and leaves the value
untouched. -/
theorem validate_type_multivalued_elementwise (cfg : AttrCfg) (a b c w : Value)
    (hm : cfg.multiValued = true)
    (ha : typeOk cfg.ty a = true) (hb : typeOk cfg.ty b = false)
    (hc : typeOk cfg.ty c = true) (hw : Value.isList w = false) :
    (validateTypeSimple cfg (Value.vList [a, b, c])).1.errors =
        [([LocSeg.n 1], [badType (scimTypeName cfg.ty)])] ∧
      (validateTypeSimple cfg (Value.vList [a, b, c])).1.stopProceeding =
        [([LocSeg.n 1], [2])] ∧
      (validateTypeSimple cfg (Value.vList [a, b, c])).1.warnings = [] ∧
      (validateTypeSimple cfg (Value.vList [a, b, c])).2 =
        Value.vList [a, Value.vInvalid, c] ∧
      canProceed (validateTypeSimple cfg (Value.vList [a, b, c])).1
          [[LocSeg.n 0]] = true ∧
      canProceed (validateTypeSimple cfg (Value.vList [a, b, c])).1
          [[LocSeg.n 2]] = true ∧
      canProceed (validateTypeSimple cfg (Value.vList [a, b, c])).1
          [[LocSeg.n 1]] = false ∧
      validateTypeSimple cfg w =
        (⟨[([], [badType "list"])], [], [([], [2])]⟩, w) := by
  have hr : validateTypeSimple cfg (Value.vList [a, b, c]) =
      (⟨[([LocSeg.n 1], [badType (scimTypeName cfg.ty)])], [],
          [([LocSeg.n 1], [2])]⟩,
        Value.vList [a, Value.vInvalid, c]) := by
    unfold validateTypeSimple validateTypeWith
    rw [hm, if_pos rfl]
    simp only [List.foldl_cons, List.foldl_nil, validateTypeStep,
      elemValidateType, ha, hb, hc, if_true, if_false]
    rfl
  rw [hr]
  refine ⟨rfl, rfl, rfl, rfl, rfl, rfl, rfl, ?_⟩
  unfold validateTypeSimple validateTypeWith
  rw [hm, if_pos rfl]
  cases w <;> first
    | rfl
    | (cases hw)

/-- C3 witness: a multi-valued boolean attribute on
`[True, "no", False]` and on the non-list input `"oops"`. -/
theorem validate_type_multivalued_elementwise_witness :
    (⟨AttrType.boolean, true, none, false, false⟩ : AttrCfg).multiValued =
        true ∧
      typeOk AttrType.boolean (Value.vBool true) = true ∧
      typeOk AttrType.boolean (Value.vStr "no") = false ∧
      Value.isList (Value.vStr "oops") = false ∧
      (validateTypeSimple ⟨AttrType.boolean, true, none, false, false⟩
          (Value.vList [Value.vBool true, Value.vStr "no", Value.vBool false])
        ).2 = Value.vList [Value.vBool true, Value.vInvalid, Value.vBool false] :=
  ⟨rfl, rfl, rfl, rfl,
    (validate_type_multivalued_elementwise
      ⟨AttrType.boolean, true, none, false, false⟩ (Value.vBool true)
      (Value.vStr "no") (Value.vBool false) (Value.vStr "oops") rfl rfl rfl rfl
      rfl).2.2.2.1⟩

/-- C8: on a multi-valued attribute, the in-place list mutation of
`validate_type` and `validate` (modelled by the value each returns
alongside its issues) overwrites exactly the elements whose type check —
respectively type check or value-level check — cannot proceed with the
`Invalid` sentinel, leaving every other element and the list's length
unchanged. -/
theorem validate_multivalued_invalid_overwrite (cfg : AttrCfg)
    (vs : List Value) (hm : cfg.multiValued = true) :
    (validateTypeSimple cfg (Value.vList vs)).2 =
        Value.vList (vs.map (fun x =>
          if typeOk cfg.ty x then x else Value.vInvalid)) ∧
      (validateSimple cfg (Value.vList vs)).2 =
        Value.vList (vs.map (fun x =>
          if typeOk cfg.ty x then
            (if canProceed (elemValidateValue cfg x) [] then x
             else Value.vInvalid)
          else Value.vInvalid)) ∧
      ∃ ws, (validateSimple cfg (Value.vList vs)).2 = Value.vList ws ∧
        ws.length = vs.length := by
  rcases hfold : vs.foldl (validateTypeStep (elemValidateType cfg.ty))
      (emptyIssues, [], 0) with ⟨I₁, out₁, i₁⟩
  have hout : out₁ = vs.map (fun x =>
      if typeOk cfg.ty x then x else Value.vInvalid) := by
    have h := typeStep_out (elemValidateType cfg.ty) vs emptyIssues [] 0
    rw [hfold] at h
    simpa [canProceed_elemValidateType] using h
  have hT : validateTypeWith (elemValidateType cfg.ty) cfg.multiValued
      (Value.vList vs) = (I₁, Value.vList out₁) := by
    unfold validateTypeWith
    rw [hm, if_pos rfl]
    dsimp only
    rw [hfold]
  have h1 : (validateTypeSimple cfg (Value.vList vs)).2 =
      Value.vList (vs.map (fun x =>
        if typeOk cfg.ty x then x else Value.vInvalid)) := by
    unfold validateTypeSimple
    rw [hT, ← hout]
  have hroot := typefold_root_none (elemValidateType cfg.ty) vs emptyIssues []
    0 rfl rfl
  rw [hfold] at hroot
  have hstop : entryAt (mergeIssues emptyIssues I₁ []).stopProceeding [] =
      none := by
    have h := mergeIssues_stop_nokey emptyIssues I₁ [] [] hroot.1
    simpa using h
  have hcp : canProceed (mergeIssues emptyIssues I₁ []) [] = true := by
    rw [canProceed_root_eq, keyMem, hstop]
    rfl
  have h2 : (validateSimple cfg (Value.vList vs)).2 =
      Value.vList (vs.map (fun x =>
        if typeOk cfg.ty x then
          (if canProceed (elemValidateValue cfg x) [] then x
           else Value.vInvalid)
        else Value.vInvalid)) := by
    unfold validateSimple validateWith
    rw [hT]
    dsimp only
    rw [hcp]
    simp only [Bool.not_true, Bool.false_eq_true, if_false, hm,
      eq_self_iff_true, if_true]
    rcases hfold₂ : out₁.foldl
        (validateElemStep (fun u => (elemValidateValue cfg u, u)))
        (mergeIssues emptyIssues I₁ [], [], 0) with ⟨I₂, out₂, i₂⟩
    dsimp only
    have hout₂ : out₂ = out₁.map (fun x =>
        match x with
        | Value.vInvalid => Value.vInvalid
        | _ =>
          if canProceed (elemValidateValue cfg x) [] then x
          else Value.vInvalid) := by
      have h := elemStep_out (fun u => (elemValidateValue cfg u, u)) out₁
        (mergeIssues emptyIssues I₁ []) [] 0
      rw [hfold₂] at h
      simpa using h
    show Value.vList out₂ = _
    rw [hout₂, hout, List.map_map]
    refine congrArg Value.vList (List.map_congr_left ?_)
    intro x _
    by_cases ht : typeOk cfg.ty x = true
    · cases x <;> simp [Function.comp, ht]
    · simp [Function.comp, ht]
  refine ⟨h1, h2, ?_⟩
  refine ⟨_, h2, ?_⟩
  rw [List.length_map]

/-- C8 witness: a multi-valued string attribute with restricted canonical
values on a list mixing a type-invalid element, a canonical value and a
non-canonical value. -/
theorem validate_multivalued_invalid_overwrite_witness :
    (⟨AttrType.string, true, some [Value.vStr "work"], true,
          true⟩ : AttrCfg).multiValued = true ∧
      (validateSimple
          ⟨AttrType.string, true, some [Value.vStr "work"], true, true⟩
          (Value.vList [Value.vInt 3, Value.vStr "work", Value.vStr "home"])
        ).2 =
        Value.vList
          [Value.vInvalid, Value.vStr "work", Value.vInvalid] := by
  refine ⟨rfl, ?_⟩
  have h := (validate_multivalued_invalid_overwrite
    ⟨AttrType.string, true, some [Value.vStr "work"], true, true⟩
    [Value.vInt 3, Value.vStr "work", Value.vStr "home"] rfl).2.1
  rw [h]
  rfl

/-- C7: a multi-valued `Complex` attribute whose sub-attributes are a
`String("type")`, an `Unknown("value")` and any further sub-attributes
(with names distinct from `type`/`value` and from `primary`), validated
against `[{"type": "work", "value": "x"}, {"type": "work", "value": "x"}]`,
yields no errors and exactly one `multiple_type_value_pairs` warning
(warning code 2) at the attribute location, via the auto-registered
duplicate-(type, value) structural validator. -/
theorem complex_duplicate_type_value_warning (extra : List SubAttrDef)
    (hext : ∀ s ∈ extra, ciEq "type" s.name = false ∧
      ciEq "value" s.name = false ∧ ciEq s.name "primary" = false) :
    (complexValidate
        ⟨⟨"type", ⟨AttrType.string, false, none, false, false⟩⟩ ::
            ⟨"value", ⟨AttrType.unknown, false, none, false, false⟩⟩ :: extra,
          true⟩
        (Value.vList
          [Value.vData [("type", Value.vStr "work"), ("value", Value.vStr "x")],
            Value.vData [("type", Value.vStr "work"),
              ("value", Value.vStr "x")]])).1.errors = [] ∧
      (complexValidate
        ⟨⟨"type", ⟨AttrType.string, false, none, false, false⟩⟩ ::
            ⟨"value", ⟨AttrType.unknown, false, none, false, false⟩⟩ :: extra,
          true⟩
        (Value.vList
          [Value.vData [("type", Value.vStr "work"), ("value", Value.vStr "x")],
            Value.vData [("type", Value.vStr "work"),
              ("value", Value.vStr "x")]])).1.warnings = [([], [2])] ∧
      StructValidatorKind.typeValuePairs ∈
        complexAutoValidators true
          (⟨"type", ⟨AttrType.string, false, none, false, false⟩⟩ ::
            ⟨"value", ⟨AttrType.unknown, false, none, false, false⟩⟩ ::
            extra) := by
  have hskip : ∀ (ex : List SubAttrDef) (iss : ValidationIssues),
      (∀ s ∈ ex, ciEq "type" s.name = false ∧ ciEq "value" s.name = false ∧
        ciEq s.name "primary" = false) →
      ex.foldl complexElemStep
          (iss, [("type", Value.vStr "work"), ("value", Value.vStr "x")]) =
        (iss, [("type", Value.vStr "work"), ("value", Value.vStr "x")]) := by
    intro ex
    induction ex with
    | nil =>
      intro iss _
      rfl
    | cons s rest ih =>
      intro iss hs
      rw [List.foldl_cons]
      have hmiss : getPlain
          [("type", Value.vStr "work"), ("value", Value.vStr "x")] s.name
          Value.vMissing = Value.vMissing := by
        unfold getPlain findCI
        rw [@List.find?_cons_of_neg _ (fun q => ciEq q.1 s.name)
            ("type", Value.vStr "work") [("value", Value.vStr "x")]
            (fun hc => Bool.false_ne_true
              (((hs s (List.mem_cons_self _ _)).1).symm.trans hc)),
          @List.find?_cons_of_neg _ (fun q => ciEq q.1 s.name)
            ("value", Value.vStr "x") []
            (fun hc => Bool.false_ne_true
              (((hs s (List.mem_cons_self _ _)).2.1).symm.trans hc))]
        rfl
      rw [show complexElemStep
          (iss, [("type", Value.vStr "work"), ("value", Value.vStr "x")]) s =
          (iss, [("type", Value.vStr "work"), ("value", Value.vStr "x")]) from by
        unfold complexElemStep
        dsimp only
        rw [hmiss]]
      exact ih iss (fun u hu => hs u (List.mem_cons_of_mem _ hu))
  have hcev : complexElemValidate
      (⟨"type", ⟨AttrType.string, false, none, false, false⟩⟩ ::
        ⟨"value", ⟨AttrType.unknown, false, none, false, false⟩⟩ :: extra)
      (Value.vData [("type", Value.vStr "work"), ("value", Value.vStr "x")]) =
      (emptyIssues,
        Value.vData [("type", Value.vStr "work"), ("value", Value.vStr "x")]) := by
    unfold complexElemValidate
    dsimp only
    rw [List.foldl_cons, List.foldl_cons]
    rw [show complexElemStep
        (complexElemStep
          (emptyIssues, [("type", Value.vStr "work"), ("value", Value.vStr "x")])
          ⟨"type", ⟨AttrType.string, false, none, false, false⟩⟩)
        ⟨"value", ⟨AttrType.unknown, false, none, false, false⟩⟩ =
        (emptyIssues,
          [("type", Value.vStr "work"), ("value", Value.vStr "x")]) from rfl]
    rw [hskip extra emptyIssues hext]
  have hprim : hasSubAttr
      (⟨"type", ⟨AttrType.string, false, none, false, false⟩⟩ ::
        ⟨"value", ⟨AttrType.unknown, false, none, false, false⟩⟩ :: extra)
      "primary" = false := by
    unfold hasSubAttr
    rw [List.any_cons, List.any_cons,
      show ciEq "type" "primary" = false from rfl,
      show ciEq "value" "primary" = false from rfl]
    simp only [Bool.false_or]
    rw [List.any_eq_false]
    intro s hs
    rw [(hext s hs).2.2]
    exact Bool.false_ne_true
  have hv : complexAutoValidators true
      (⟨"type", ⟨AttrType.string, false, none, false, false⟩⟩ ::
        ⟨"value", ⟨AttrType.unknown, false, none, false, false⟩⟩ :: extra) =
      [StructValidatorKind.typeValuePairs] := by
    unfold complexAutoValidators
    rw [if_pos rfl, hprim,
      show hasSubAttr
        (⟨"type", ⟨AttrType.string, false, none, false, false⟩⟩ ::
          ⟨"value", ⟨AttrType.unknown, false, none, false, false⟩⟩ :: extra)
        "type" = true from rfl,
      show hasSubAttr
        (⟨"type", ⟨AttrType.string, false, none, false, false⟩⟩ ::
          ⟨"value", ⟨AttrType.unknown, false, none, false, false⟩⟩ :: extra)
        "value" = true from rfl]
    rfl
  have hmain : complexValidate
      ⟨⟨"type", ⟨AttrType.string, false, none, false, false⟩⟩ ::
          ⟨"value", ⟨AttrType.unknown, false, none, false, false⟩⟩ :: extra,
        true⟩
      (Value.vList
        [Value.vData [("type", Value.vStr "work"), ("value", Value.vStr "x")],
          Value.vData [("type", Value.vStr "work"), ("value", Value.vStr "x")]]) =
      (⟨[], [([], [2])], []⟩,
        Value.vList
          [Value.vData [("type", Value.vStr "work"), ("value", Value.vStr "x")],
            Value.vData [("type", Value.vStr "work"),
              ("value", Value.vStr "x")]]) := by
    unfold complexValidate validateWith
    dsimp only
    rw [hv]
    rw [show validateTypeWith complexTypeIssues true
        (Value.vList
          [Value.vData [("type", Value.vStr "work"), ("value", Value.vStr "x")],
            Value.vData [("type", Value.vStr "work"),
              ("value", Value.vStr "x")]]) =
        (emptyIssues,
          Value.vList
            [Value.vData [("type", Value.vStr "work"),
                ("value", Value.vStr "x")],
              Value.vData [("type", Value.vStr "work"),
                ("value", Value.vStr "x")]]) from rfl]
    dsimp only
    rw [show canProceed (mergeIssues emptyIssues emptyIssues []) [] = true
      from rfl]
    simp only [Bool.not_true, Bool.false_eq_true, if_false, if_true]
    rw [List.foldl_cons, List.foldl_cons, List.foldl_nil]
    simp only [validateElemStep, hcev]
    rfl
  rw [hmain, hv]
  exact ⟨rfl, rfl, List.mem_singleton_self _⟩

/-- C7 witness: the two-sub-attribute instance (`extra = []`). -/
theorem complex_duplicate_type_value_warning_witness :
    (complexValidate
        ⟨[⟨"type", ⟨AttrType.string, false, none, false, false⟩⟩,
            ⟨"value", ⟨AttrType.unknown, false, none, false, false⟩⟩],
          true⟩
        (Value.vList
          [Value.vData [("type", Value.vStr "work"), ("value", Value.vStr "x")],
            Value.vData [("type", Value.vStr "work"),
              ("value", Value.vStr "x")]])).1.errors = [] ∧
      (complexValidate
        ⟨[⟨"type", ⟨AttrType.string, false, none, false, false⟩⟩,
            ⟨"value", ⟨AttrType.unknown, false, none, false, false⟩⟩],
          true⟩
        (Value.vList
          [Value.vData [("type", Value.vStr "work"), ("value", Value.vStr "x")],
            Value.vData [("type", Value.vStr "work"),
              ("value", Value.vStr "x")]])).1.warnings = [([], [2])] := by
  have h := complex_duplicate_type_value_warning []
    (fun s hs => absurd hs (List.not_mem_nil s))
  exact ⟨h.1, h.2.1⟩

/-- C10 witness: `Emails.Type` (unbound) against
`urn:example:User:emails.type` (bound, non-extension). -/
theorem attrrep_eq_ignores_schema_witness :
    lc "Emails" = lc "emails" ∧ subEq (some "Type") (some "type") = true ∧
      repEq (Rep.plain "Emails" (some "Type"))
        (Rep.bounded "urn:example:User" "emails" (some "type") false) = true :=
  ⟨rfl, by decide,
    (attrrep_eq_ignores_schema "urn:example:User" "urn:example:User" "Emails"
      "emails" (some "Type") (some "type") false false rfl (by decide)).1⟩

end Scimple
